import Mathlib

/-!
Verification of the round-based generation-and-publication pipeline of this
repository (`src/main.py`, `src/services/llm_service.py`,
`src/services/github_service.py`, `src/services/utils.py`).

Modelling conventions:
* Python strings are `String` / `List Char`; `str.strip`, `str.endswith`,
  `in`, `str.lower` are modelled char-exactly below.
* Python dicts (the FileSet of the spec) are ordered association lists with
  insert-or-update semantics, which matches CPython dict insertion order.
* The GitHub repository history is a list of commit trees, newest first;
  a commit sha is modelled as the commit's index from the root commit.
* `json.loads` is modelled restricted to flat string-to-string objects
  (`jsonLoadsFlat`); on every other JSON shape the model fails where Python
  would produce a non-dict value or a dict with non-string values.  The
  pipeline only ever accepts flat string-to-string objects, so this is the
  shape all claims are about.
* The three regular expressions of `_parse_response`, the one of the
  attachment recovery in `main.py`, and `re.sub` are modelled as the
  deterministic char-level procedures those concrete patterns denote.
-/

namespace Spec2Proof

/-! ### Generic string helpers (Python `startswith`, `endswith`, `in`, `strip`, `lower`) -/

/-- Bool test: `p` is a prefix of `l` (Python `str.startswith`). -/
def prefOf : List Char → List Char → Bool
  | [], _ => true
  | _ :: _, [] => false
  | a :: as, b :: bs => a == b && prefOf as bs

/-- Bool test: `p` is a suffix of `l` (Python `str.endswith`). -/
def sufOf (p l : List Char) : Bool :=
  prefOf p.reverse l.reverse

/-- Bool test: `p` occurs as a contiguous substring of `l` (Python `in`). -/
def hasSub (p : List Char) : List Char → Bool
  | [] => p.isEmpty
  | c :: r => prefOf p (c :: r) || hasSub p r

/-- Python `str.lower` on the character list (ASCII case only, which is all
the pipeline compares). -/
def lowerD (l : List Char) : List Char :=
  l.map Char.toLower

/-- Python whitespace for `str.strip` and the regex class `\s`. -/
def pyWsB (c : Char) : Bool :=
  c == ' ' || c == '\t' || c == '\n' || c == '\r' || c == '\x0b' || c == '\x0c'

/-- Python `str.strip()` on a character list. -/
def stripL (l : List Char) : List Char :=
  ((l.dropWhile pyWsB).reverse.dropWhile pyWsB).reverse

theorem prefOf_iff (p l : List Char) : prefOf p l = true ↔ ∃ t, l = p ++ t := by
  induction p generalizing l with
  | nil => simp [prefOf]
  | cons a as ih =>
    cases l with
    | nil => simp [prefOf]
    | cons b bs =>
      simp only [prefOf, Bool.and_eq_true, beq_iff_eq, ih]
      constructor
      · rintro ⟨rfl, t, rfl⟩; exact ⟨t, rfl⟩
      · rintro ⟨t, h⟩
        cases h
        exact ⟨rfl, t, rfl⟩

theorem sufOf_iff (p l : List Char) : sufOf p l = true ↔ ∃ t, l = t ++ p := by
  simp only [sufOf, prefOf_iff]
  constructor
  · rintro ⟨t, h⟩
    refine ⟨t.reverse, ?_⟩
    have := congrArg List.reverse h
    simpa using this
  · rintro ⟨t, rfl⟩
    exact ⟨t.reverse, by simp⟩

theorem hasSub_iff (p l : List Char) :
    hasSub p l = true ↔ ∃ a b, l = a ++ p ++ b := by
  induction l with
  | nil =>
    simp only [hasSub, List.isEmpty_iff]
    constructor
    · rintro rfl; exact ⟨[], [], rfl⟩
    · rintro ⟨a, b, h⟩
      rcases List.append_eq_nil.1 h.symm with ⟨h1, h2⟩
      exact (List.append_eq_nil.1 h1).2
  | cons c r ih =>
    simp only [hasSub, Bool.or_eq_true, prefOf_iff, ih]
    constructor
    · rintro (⟨t, h⟩ | ⟨a, b, h⟩)
      · exact ⟨[], t, by simp [h]⟩
      · exact ⟨c :: a, b, by simp [h]⟩
    · rintro ⟨a, b, h⟩
      cases a with
      | nil => exact Or.inl ⟨b, by simpa using h⟩
      | cons a0 as =>
        right
        refine ⟨as, b, ?_⟩
        simpa using congrArg List.tail h

theorem hasSub_of_sufOf {p l : List Char} (h : sufOf p l = true) :
    hasSub p l = true := by
  rcases (sufOf_iff p l).1 h with ⟨t, rfl⟩
  exact (hasSub_iff p _).2 ⟨t, [], by simp⟩

theorem hasSub_lower {p l : List Char} (h : hasSub p l = true) :
    hasSub (lowerD p) (lowerD l) = true := by
  rcases (hasSub_iff p l).1 h with ⟨a, b, rfl⟩
  exact (hasSub_iff _ _).2 ⟨lowerD a, lowerD b, by simp [lowerD]⟩

theorem stripL_infix (l : List Char) : ∃ a b, l = a ++ stripL l ++ b := by
  refine ⟨l.takeWhile pyWsB, ((l.dropWhile pyWsB).reverse.takeWhile pyWsB).reverse, ?_⟩
  have h1 : l.takeWhile pyWsB ++ l.dropWhile pyWsB = l :=
    List.takeWhile_append_dropWhile pyWsB l
  have h2 : (l.dropWhile pyWsB).reverse.takeWhile pyWsB ++
      (l.dropWhile pyWsB).reverse.dropWhile pyWsB = (l.dropWhile pyWsB).reverse :=
    List.takeWhile_append_dropWhile pyWsB (l.dropWhile pyWsB).reverse
  have h3 : l.dropWhile pyWsB =
      stripL l ++ ((l.dropWhile pyWsB).reverse.takeWhile pyWsB).reverse := by
    have h4 := congrArg List.reverse h2
    rw [List.reverse_append, List.reverse_reverse] at h4
    simp only [stripL]
    exact h4.symm
  conv_lhs => rw [← h1, h3]
  rw [List.append_assoc]

theorem hasSub_of_sufOf_stripL {p l : List Char} (h : sufOf p (stripL l) = true) :
    hasSub p l = true := by
  rcases (sufOf_iff p _).1 h with ⟨t, ht⟩
  rcases stripL_infix l with ⟨a, b, hl⟩
  exact (hasSub_iff p l).2 ⟨a ++ t, b, by rw [hl, ht]; simp⟩

theorem sufOf_append_right (p s t : List Char) (h : sufOf p t = true) :
    sufOf p (s ++ t) = true := by
  rcases (sufOf_iff p t).1 h with ⟨u, rfl⟩
  exact (sufOf_iff p _).2 ⟨s ++ u, by simp⟩

/-! ### FileSets: Python dicts mapping file path to text content -/

/-- A FileSet: mapping from repository-relative path to text content,
as an ordered association list (CPython dict order). -/
abbrev FS := List (String × String)

/-- First-match association lookup (`d[k]` / `k in d`). -/
def FS.lookup : FS → String → Option String
  | [], _ => none
  | (a, b) :: r, k => if a = k then some b else FS.lookup r k

/-- Python dict assignment `d[k] = v`: update in place if present, else append. -/
def FS.insert : FS → String → String → FS
  | [], k, v => [(k, v)]
  | (a, b) :: r, k, v => if a = k then (k, v) :: r else (a, b) :: FS.insert r k v

/-- Drop one key (building a new dict skipping `k`, as `main.py` does with
`attachments.js`). -/
def FS.eraseKey : FS → String → FS
  | [], _ => []
  | (a, b) :: r, k => if a = k then FS.eraseKey r k else (a, b) :: FS.eraseKey r k

/-- Python `base.update(upd)`: assign every pair of `upd` into `base` in order. -/
def FS.updateAll (base upd : FS) : FS :=
  upd.foldl (fun acc kv => FS.insert acc kv.1 kv.2) base

/-- Keys of a FileSet, in order. -/
def FS.keys (fs : FS) : List String :=
  fs.map Prod.fst

theorem FS.lookup_insert_self (fs : FS) (k v : String) :
    FS.lookup (FS.insert fs k v) k = some v := by
  induction fs with
  | nil => simp [FS.insert, FS.lookup]
  | cons kv r ih =>
    obtain ⟨a, b⟩ := kv
    by_cases h : a = k <;> simp [FS.insert, FS.lookup, h, ih]

theorem FS.lookup_insert_ne (fs : FS) (k v : String) (k' : String) (h : k' ≠ k) :
    FS.lookup (FS.insert fs k v) k' = FS.lookup fs k' := by
  induction fs with
  | nil => simp [FS.insert, FS.lookup, Ne.symm h]
  | cons kv r ih =>
    obtain ⟨a, b⟩ := kv
    by_cases ha : a = k
    · subst ha
      simp [FS.insert, FS.lookup, Ne.symm h]
    · by_cases ha' : a = k' <;> simp [FS.insert, FS.lookup, ha, ha', h, ih]

theorem FS.lookup_eraseKey_self (fs : FS) (k : String) :
    FS.lookup (FS.eraseKey fs k) k = none := by
  induction fs with
  | nil => simp [FS.eraseKey, FS.lookup]
  | cons kv r ih =>
    obtain ⟨a, b⟩ := kv
    by_cases h : a = k <;> simp [FS.eraseKey, FS.lookup, h, ih]

theorem FS.lookup_eraseKey_ne (fs : FS) (k k' : String) (h : k' ≠ k) :
    FS.lookup (FS.eraseKey fs k) k' = FS.lookup fs k' := by
  induction fs with
  | nil => simp [FS.eraseKey, FS.lookup]
  | cons kv r ih =>
    obtain ⟨a, b⟩ := kv
    by_cases ha : a = k
    · subst ha
      simp [FS.eraseKey, FS.lookup, Ne.symm h, ih]
    · by_cases ha' : a = k' <;> simp [FS.eraseKey, FS.lookup, ha, ha', h, ih]

theorem FS.lookup_eq_none_of_not_mem_keys (fs : FS) (k : String)
    (h : k ∉ FS.keys fs) : FS.lookup fs k = none := by
  induction fs with
  | nil => simp [FS.lookup]
  | cons kv r ih =>
    obtain ⟨a, b⟩ := kv
    simp only [FS.keys, List.map_cons, List.mem_cons, not_or] at h
    simp [FS.lookup, Ne.symm h.1, ih (by simpa [FS.keys] using h.2)]

theorem FS.lookup_updateAll (base upd : FS) (k : String)
    (hnd : (FS.keys upd).Nodup) :
    FS.lookup (FS.updateAll base upd) k =
      match FS.lookup upd k with
      | some v => some v
      | none => FS.lookup base k := by
  induction upd generalizing base with
  | nil => simp [FS.updateAll, FS.lookup]
  | cons kv r ih =>
    obtain ⟨a, b⟩ := kv
    simp only [FS.keys, List.map_cons, List.nodup_cons] at hnd
    have step : FS.updateAll base ((a, b) :: r) = FS.updateAll (FS.insert base a b) r := by
      simp [FS.updateAll, List.foldl_cons]
    rw [step, ih _ (by simpa [FS.keys] using hnd.2)]
    by_cases hk : a = k
    · subst hk
      have : FS.lookup r a = none :=
        FS.lookup_eq_none_of_not_mem_keys r a (by simpa [FS.keys] using hnd.1)
      simp [FS.lookup, this, FS.lookup_insert_self]
    · simp [FS.lookup, hk, FS.lookup_insert_ne base a b k (Ne.symm hk)]

/-! ### A model of `json.loads` for flat string-to-string objects -/

/-- JSON whitespace (`json.loads` skips exactly space, tab, newline, return). -/
def jWsB (c : Char) : Bool :=
  c == ' ' || c == '\t' || c == '\n' || c == '\r'

/-- Skip JSON whitespace. -/
def jWs (l : List Char) : List Char :=
  l.dropWhile jWsB

theorem dropWhile_len_le (p : Char → Bool) (l : List Char) :
    (l.dropWhile p).length ≤ l.length := by
  induction l with
  | nil => simp
  | cons c r ih =>
    by_cases h : p c <;> simp [List.dropWhile_cons, h] <;> omega

/-- Value of a hexadecimal digit. -/
def hexVal (c : Char) : Option Nat :=
  if '0' ≤ c ∧ c ≤ '9' then some (c.toNat - '0'.toNat)
  else if 'a' ≤ c ∧ c ≤ 'f' then some (c.toNat - 'a'.toNat + 10)
  else if 'A' ≤ c ∧ c ≤ 'F' then some (c.toNat - 'A'.toNat + 10)
  else none

/-- Decoding of a single-character JSON escape. -/
def escChar : Char → Option Char
  | '"' => some '"'
  | '\\' => some '\\'
  | '/' => some '/'
  | 'b' => some '\x08'
  | 'f' => some '\x0c'
  | 'n' => some '\n'
  | 'r' => some '\r'
  | 't' => some '\t'
  | _ => none

/-- Body of a JSON string literal after the opening quote, as strict
`json.loads` reads it: stops at the closing quote, decodes the standard
escapes and `\uXXXX`, rejects raw control characters.  Returns the decoded
characters and the remaining input. -/
def jStrBody : List Char → Option (List Char × List Char)
  | [] => none
  | c :: r =>
    if c = '"' then some ([], r)
    else if c = '\\' then
      match r with
      | [] => none
      | e :: r2 =>
        if e = 'u' then
          match r2 with
          | h1 :: h2 :: h3 :: h4 :: r3 =>
            match hexVal h1, hexVal h2, hexVal h3, hexVal h4 with
            | some a, some b, some c2, some d =>
              (jStrBody r3).map fun p => (Char.ofNat (((a * 16 + b) * 16 + c2) * 16 + d) :: p.1, p.2)
            | _, _, _, _ => none
          | _ => none
        else
          match escChar e with
          | some ec => (jStrBody r2).map fun p => (ec :: p.1, p.2)
          | none => none
    else if c.toNat < 32 then none
    else (jStrBody r).map fun p => (c :: p.1, p.2)

/-- One `"key": "value"` member and the rest of a flat JSON object, looping
on `,` and closing on the final brace; the whole remaining document must be
consumed up to trailing whitespace, as `json.loads` requires.  Members
accumulate by dict assignment, so a duplicate key keeps the last value, as
in CPython.  The fuel argument only makes the recursion structural: every
call site passes more fuel than the input length, and each member consumes
at least one input character, so the fuel never runs out. -/
def jMembersF : Nat → List Char → FS → Option FS
  | 0, _, _ => none
  | fuel + 1, l, acc =>
    match l with
    | [] => none
    | c :: r =>
      if c = '"' then
        match jStrBody r with
        | none => none
        | some (k, r1) =>
          match jWs r1 with
          | [] => none
          | c2 :: r3 =>
            if c2 = ':' then
              match jWs r3 with
              | [] => none
              | c3 :: r5 =>
                if c3 = '"' then
                  match jStrBody r5 with
                  | none => none
                  | some (v, r6) =>
                    match jWs r6 with
                    | [] => none
                    | c4 :: r8 =>
                      if c4 = ',' then
                        jMembersF fuel (jWs r8) (FS.insert acc (String.mk k) (String.mk v))
                      else if c4 = '\x7d' then
                        if (jWs r8).isEmpty then
                          some (FS.insert acc (String.mk k) (String.mk v))
                        else none
                      else none
                else none
            else none
      else none

/-- The model of `json.loads` used throughout: parses exactly the flat
string-to-string JSON objects; any other document is a failure (where
CPython would instead produce a non-dict value or a dict with non-string
values, which `_parse_response`'s call sites reject or never see). -/
def jsonLoadsFlat (s : List Char) : Option FS :=
  match jWs s with
  | '\x7b' :: r =>
    match jWs r with
    | '\x7d' :: r2 => if (jWs r2).isEmpty then some [] else none
    | c :: r2 => jMembersF (s.length + 1) (c :: r2) []
    | [] => none
  | _ => none

/-! ### Response Extractor (`LLMService._parse_response`, `src/services/llm_service.py` 239-306) -/

/-- Fence-marker stripping: `strip`, drop a leading ```` ```json ```` (7 chars)
or ```` ``` ```` (3 chars), drop a trailing ```` ``` ````, `strip` again. -/
def stripFences (s0 : List Char) : List Char :=
  let s1 := stripL s0
  let s2 := if prefOf "```json".data s1 then s1.drop 7
            else if prefOf "```".data s1 then s1.drop 3
            else s1
  let s3 := if sufOf "```".data s2 then s2.take (s2.length - 3) else s2
  stripL s3

/-- Matching of the regex `\x7b[^\x7b\x7d]*(?:\x7b[^\x7b\x7d]*\x7d[^\x7b\x7d]*)*\x7d`
from one position after its opening brace: consume non-brace characters,
close on a brace-up at nesting depth one, allow depth-two groups, and fail on
depth three (where the regex has no way to match, by its backtracking
analysis).  Returns the matched characters after the opening brace and the
rest of the input. -/
def scanMatch : List Char → Bool → Option (List Char × List Char)
  | [], _ => none
  | c :: r, inInner =>
    if c = '\x7d' then
      if inInner then (scanMatch r false).map fun p => (c :: p.1, p.2)
      else some ([c], r)
    else if c = '\x7b' then
      if inInner then none
      else (scanMatch r true).map fun p => (c :: p.1, p.2)
    else (scanMatch r inInner).map fun p => (c :: p.1, p.2)

/-- `re.finditer` over the whole text for the stage-2 brace regex: at every
opening brace attempt a match; on success emit it and continue after it, on
failure advance one character.  Fuel makes the recursion structural; every
scan step consumes at least one character, so the wrapper's fuel never runs
out. -/
def findAllBraceF : Nat → List Char → List (List Char)
  | 0, _ => []
  | fuel + 1, l =>
    match l with
    | [] => []
    | c :: r =>
      if c = '\x7b' then
        match scanMatch r false with
        | some (m, rest) => (c :: m) :: findAllBraceF fuel rest
        | none => findAllBraceF fuel r
      else findAllBraceF fuel r

/-- The stage-2 candidate scan at its full fuel. -/
def findAllBrace (l : List Char) : List (List Char) :=
  findAllBraceF (l.length + 1) l

/-- Stage 2 of `_parse_response`: try each brace-delimited candidate in order,
returning the first that parses as a dict with at least one `.html` key. -/
def stage2 : List (List Char) → Option FS
  | [] => none
  | cand :: cs =>
    match jsonLoadsFlat cand with
    | some d =>
      if d.any (fun kv => sufOf ".html".data kv.1.data) then some d else stage2 cs
    | none => stage2 cs

/-- Python `response.find('\x7b')` / `response.rfind('\x7d')` slice for stage 3:
the span from the first opening brace to the last closing brace after it,
`none` when no such span exists. -/
def sliceBraces (s : List Char) : Option (List Char) :=
  let t1 := s.dropWhile fun c => !(c == '\x7b')
  let r := (t1.reverse.dropWhile fun c => !(c == '\x7d')).reverse
  if r.isEmpty then none else some r

/-- The stage-3 repair `re.sub(r',(\\s*[\x7d\\]])', r'\\1', s)`: remove every
comma that is followed only by whitespace and then a closing brace or
bracket, scanning left to right without overlap.  Fuel as above. -/
def subTrailingF : Nat → List Char → List Char
  | 0, l => l
  | fuel + 1, l =>
    match l with
    | [] => []
    | c :: r =>
      if c = ',' then
        match r.dropWhile pyWsB with
        | c2 :: r2 =>
          if c2 = '\x7d' ∨ c2 = ']' then r.takeWhile pyWsB ++ c2 :: subTrailingF fuel r2
          else c :: subTrailingF fuel r
        | [] => c :: subTrailingF fuel r
      else c :: subTrailingF fuel r

/-- The stage-3 comma repair at its full fuel. -/
def subTrailing (l : List Char) : List Char :=
  subTrailingF (l.length + 1) l

/-- Stage 3 of `_parse_response`: take the first-brace-to-last-brace span,
remove trailing separators, and parse. -/
def stage3 (r : List Char) : Option FS :=
  match sliceBraces r with
  | none => none
  | some js => jsonLoadsFlat (subTrailing js)

/-- The content group `((?:[^"\\]|\\.)*)` of the stage-4 pair regex: raw
characters up to the first unescaped quote, escapes kept verbatim. -/
def scanContent : List Char → Option (List Char × List Char)
  | [] => none
  | c :: r =>
    if c = '"' then some ([], r)
    else if c = '\\' then
      match r with
      | [] => none
      | e :: r2 => (scanContent r2).map fun p => (c :: e :: p.1, p.2)
    else (scanContent r).map fun p => (c :: p.1, p.2)

/-- The filename group `([^"]+\.(html|css|js|md))` of the stage-4 regex:
the quoted token must be at least one character followed by a dot and one of
the four recognized extensions. -/
def extOk (tok : List Char) : Bool :=
  (sufOf ".html".data tok && decide (6 ≤ tok.length))
  || (sufOf ".css".data tok && decide (5 ≤ tok.length))
  || (sufOf ".js".data tok && decide (4 ≤ tok.length))
  || (sufOf ".md".data tok && decide (4 ≤ tok.length))

/-- Python `str.replace(pat, rep)`: leftmost, non-overlapping.  Fuel as
above (every step consumes at least one character when the pattern is
non-empty, as all call sites' patterns are). -/
def listReplaceF : Nat → List Char → List Char → List Char → List Char
  | 0, _, _, l => l
  | fuel + 1, pat, rep, l =>
    if pat.isEmpty then l
    else
      match l with
      | [] => []
      | c :: r =>
        if prefOf pat (c :: r) then rep ++ listReplaceF fuel pat rep ((c :: r).drop pat.length)
        else c :: listReplaceF fuel pat rep r

/-- Python `str.replace` at its full fuel. -/
def listReplace (pat rep l : List Char) : List Char :=
  listReplaceF (l.length + 1) pat rep l

/-- The stage-4 unescaping
`content.replace('\\n', '\n').replace('\\t', '\t').replace('\\"', '"')`,
applied in that order. -/
def unescape (content : List Char) : List Char :=
  listReplace "\\\"".data "\"".data
    (listReplace "\\t".data "\t".data
      (listReplace "\\n".data "\n".data content))

/-- One attempted match of the stage-4 pair regex
`"([^"]+\.(html|css|js|md))"\s*:\s*"((?:[^"\\]|\\.)*)"` starting right after
an opening quote.  Returns the filename, the unescaped content, and the rest
of the input after the match. -/
def tryPair (r : List Char) : Option (String × String × List Char) :=
  match r.dropWhile (fun c => !(c == '"')) with
  | '"' :: r2 =>
    if extOk (r.takeWhile fun c => !(c == '"')) then
      match r2.dropWhile pyWsB with
      | ':' :: r4 =>
        match r4.dropWhile pyWsB with
        | '"' :: r6 =>
          match scanContent r6 with
          | some (content, rest) =>
            some (String.mk (r.takeWhile fun c => !(c == '"')), String.mk (unescape content), rest)
          | none => none
        | _ => none
      | _ => none
    else none
  | _ => none

/-- Stage 4 of `_parse_response`: scan the whole text for pair matches,
building the result dict in match order.  Fuel as above. -/
def extractPairsF : Nat → List Char → FS → FS
  | 0, _, acc => acc
  | fuel + 1, l, acc =>
    match l with
    | [] => acc
    | c :: r =>
      if c = '"' then
        match tryPair r with
        | some (k, v, rest) => extractPairsF fuel rest (FS.insert acc k v)
        | none => extractPairsF fuel r acc
      else extractPairsF fuel r acc

/-- The stage-4 pair scan at its full fuel. -/
def extractPairs (l : List Char) (acc : FS) : FS :=
  extractPairsF (l.length + 1) l acc

/-- `LLMService._parse_response`: fence stripping, then the four extraction
stages in order, and finally the `ValueError` carrying the 500-character
preview of the fence-stripped text. -/
def parseResponse (s0 : List Char) : Except (List Char) FS :=
  let r := stripFences s0
  match jsonLoadsFlat r with
  | some d => .ok d
  | none =>
    match stage2 (findAllBrace r) with
    | some d => .ok d
    | none =>
      match stage3 r with
      | some d => .ok d
      | none =>
        let d := extractPairs r []
        if d.isEmpty then .error (r.take 500) else .ok d

/-- Repair of a possibly truncated `index.html`, exactly as `main.py` does:
if the stripped content ends with neither `</html>` nor `</HTML>`, and the
lower-cased content contains `<html` but not `</html>`, append
`"\n</body>\n</html>"`; otherwise leave the content untouched. -/
def repairHtml (c : String) : String :=
  if !(sufOf "</html>".data (stripL c.data)) && !(sufOf "</HTML>".data (stripL c.data))
      && hasSub "<html".data (lowerD c.data) && !(hasSub "</html>".data (lowerD c.data))
  then c ++ "\n</body>\n</html>"
  else c

/-! ### Publication Client (`GitHubService.commit_files`, `src/services/github_service.py` 68-166) -/

/-- `GitHubService.commit_files` over the repository history (list of commit
trees, newest first; a sha is modelled as the commit's index from the root
commit).  An empty repository is initialized with `create_file` for the
first file (one commit) and, when more files remain, a second commit
layering the remaining files onto that base tree; a non-empty repository
gets exactly one commit layering every given file onto the branch tip.
`none` models the `IndexError` raised on an empty FileSet. -/
def commitFiles (hist : List FS) (files : FS) : Option (Nat × List FS) :=
  match files with
  | [] => none
  | (p, c) :: rest =>
    match hist with
    | [] =>
      let t1 : FS := [(p, c)]
      if rest.isEmpty then some (0, [t1])
      else some (1, [FS.updateAll t1 rest, t1])
    | tip :: _ => some (hist.length, FS.updateAll tip files :: hist)

/-! ### Snapshot Assembler (`src/main.py` lines 176-245) -/

/-- `get_mit_license` from `src/services/utils.py`, verbatim. -/
def mitLicenseText : String :=
  "MIT License\n\nCopyright (c) 2025\n\n" ++
  "Permission is hereby granted, free of charge, to any person obtaining a copy\n" ++
  "of this software and associated documentation files (the \"Software\"), to deal\n" ++
  "in the Software without restriction, including without limitation the rights\n" ++
  "to use, copy, modify, merge, publish, distribute, sublicense, and/or sell\n" ++
  "copies of the Software, and to permit persons to whom the Software is\n" ++
  "furnished to do so, subject to the following conditions:\n\n" ++
  "The above copyright notice and this permission notice shall be included in all\n" ++
  "copies or substantial portions of the Software.\n\n" ++
  "THE SOFTWARE IS PROVIDED \"AS IS\", WITHOUT WARRANTY OF ANY KIND, EXPRESS OR\n" ++
  "IMPLIED, INCLUDING BUT NOT LIMITED TO THE WARRANTIES OF MERCHANTABILITY,\n" ++
  "FITNESS FOR A PARTICULAR PURPOSE AND NONINFRINGEMENT. IN NO EVENT SHALL THE\n" ++
  "AUTHORS OR COPYRIGHT HOLDERS BE LIABLE FOR ANY CLAIM, DAMAGES OR OTHER\n" ++
  "LIABILITY, WHETHER IN AN ACTION OF CONTRACT, TORT OR OTHERWISE, ARISING FROM,\n" ++
  "OUT OF OR IN CONNECTION WITH THE SOFTWARE OR THE USE OR OTHER DEALINGS IN THE\n" ++
  "SOFTWARE.\n"

/-- The fallback README built in `process_task` when no `README.md` exists. -/
def basicReadme (repoName brief : String) (checks : List String) : String :=
  "# " ++ repoName ++ "\n\n## Overview\nAuto-generated project based on: " ++ brief ++
  "\n\n## Features\n- Please refer to the application for full functionality details\n\n" ++
  "## Usage\n1. Open `index.html` in a web browser\n2. Follow any on-screen instructions\n\n" ++
  "## Technical Details\n- Built with vanilla HTML, CSS, and JavaScript\n- No external dependencies required\n\n" ++
  "## Evaluation Criteria\n" ++
  String.intercalate "\n" (checks.map fun c => "- " ++ c) ++ "\n"

/-- The license requirement test of `process_task`:
`any("mit license" in check.lower() for check in request.checks)`. -/
def mitMentioned (checks : List String) : Bool :=
  checks.any fun c => hasSub "mit license".data (lowerD c.data)

/-- Step 6's merge (lines 176-188): for round > 1 start with the existing
files minus `attachments.js`, then apply every generated file over them;
for round 1 the generated files alone. -/
def mergeStage (round : Nat) (existing generated : FS) : FS :=
  let base := if 1 < round then FS.eraseKey existing "attachments.js" else []
  FS.updateAll base generated

/-- Step "add attachments.js if we have attachments" of `process_task`. -/
def addManifest (fs : FS) (attachmentsJs : Option String) : FS :=
  match attachmentsJs with
  | some c => FS.insert fs "attachments.js" c
  | none => fs

/-- The pure part of step 6 (merge, `index.html` validation, truncation
repair, manifest injection, license injection, README fallback) of
`process_task`, returning the FileSet that is committed, or the detail
string of the `HTTPException` raised when `index.html` is missing. -/
def assembleFiles (round : Nat) (existing generated : FS) (attachmentsJs : Option String)
    (checks : List String) (brief repoName : String) : Except String FS :=
  let afMerged := mergeStage round existing generated
  match FS.lookup afMerged "index.html" with
  | none => .error "LLM did not generate required index.html file"
  | some html =>
    let af2 := FS.insert afMerged "index.html" (repairHtml html)
    let af3 := addManifest af2 attachmentsJs
    let af4 := if mitMentioned checks = true ∨ FS.lookup af3 "LICENSE" = none
               then FS.insert af3 "LICENSE" mitLicenseText
               else af3
    let af5 := if FS.lookup af4 "README.md" = none
               then FS.insert af4 "README.md" (basicReadme repoName brief checks)
               else af4
    .ok af5

/-! ### Attachment Reconciler (`src/main.py` lines 115-152) -/

/-- Hexadecimal digit character for `\u00XX` escapes in `json.dumps`. -/
def hexDigit (n : Nat) : Char :=
  if n < 10 then Char.ofNat ('0'.toNat + n) else Char.ofNat ('a'.toNat + (n - 10))

/-- String escaping of `json.dumps` (ASCII range; the escapes the manifest
can contain). -/
def jsonEscape : List Char → List Char
  | [] => []
  | c :: r =>
    (if c = '"' then ['\\', '"']
     else if c = '\\' then ['\\', '\\']
     else if c = '\n' then ['\\', 'n']
     else if c = '\t' then ['\\', 't']
     else if c = '\r' then ['\\', 'r']
     else if c.toNat < 32 then ['\\', 'u', '0', '0', hexDigit (c.toNat / 16), hexDigit (c.toNat % 16)]
     else [c]) ++ jsonEscape r

/-- `json.dumps(d, indent=2)` for a flat string-to-string mapping. -/
def jsonDumps2 (d : FS) : List Char :=
  match d with
  | [] => "\x7b\x7d".data
  | _ =>
    "\x7b\n".data ++
    List.intercalate ",\n".data
      (d.map fun kv =>
        "  \"".data ++ jsonEscape kv.1.data ++ "\": \"".data ++ jsonEscape kv.2.data ++ "\"".data) ++
    "\n\x7d".data

/-- The regenerated `attachments.js` manifest text (step 4 of `process_task`). -/
def manifestText (d : FS) : String :=
  "// Auto-generated attachments file\n" ++
  "// Access attachments via: window.attachments[\"filename.ext\"]\n" ++
  "window.attachments = " ++ String.mk (jsonDumps2 d) ++ ";\n"

/-- Strip a literal prefix, for the attachment-recovery regex model. -/
def stripLit (lit l : List Char) : Option (List Char) :=
  if prefOf lit l then some (l.drop lit.length) else none

/-- The greedy group `(\x7b.+\x7d)` followed by `\s*;` (DOTALL): split at the
LAST closing brace whose tail is whitespace and then a semicolon.  Returns
the characters strictly between the opening position and that closing brace,
and the characters after it. -/
def lastCloseSplit : List Char → Option (List Char × List Char)
  | [] => none
  | c :: rest =>
    match lastCloseSplit rest with
    | some (a, b) => some (c :: a, b)
    | none =>
      if c == '\x7d' && ((rest.dropWhile pyWsB).head? == some ';') then some ([], rest)
      else none

/-- One attempted match of `window\.attachments\s*=\s*(\x7b.+\x7d)\s*;` at the
start of the input, returning the captured group. -/
def matchWAAt (s : List Char) : Option (List Char) :=
  match stripLit "window.attachments".data s with
  | none => none
  | some s1 =>
    match stripLit "=".data (s1.dropWhile pyWsB) with
    | none => none
    | some s3 =>
      match s3.dropWhile pyWsB with
      | '\x7b' :: t =>
        match lastCloseSplit t with
        | some (a, _) => if a.isEmpty then none else some ('\x7b' :: (a ++ "\x7d".data))
        | none => none
      | _ => none

/-- `re.search` for the attachment-recovery pattern: leftmost match wins. -/
def searchWA : List Char → Option (List Char)
  | [] => none
  | c :: rest =>
    match matchWAAt (c :: rest) with
    | some g => some g
    | none => searchWA rest

/-- The attachment recovery of `process_task` (lines 120-133): search the
prior `attachments.js` for the embedded literal, parse it with `json.loads`,
and degrade to the empty mapping on any failure. -/
def recoverAttachments (existing : FS) : FS :=
  match FS.lookup existing "attachments.js" with
  | none => []
  | some js =>
    match searchWA js.data with
    | none => []
    | some g =>
      match jsonLoadsFlat g with
      | none => []
      | some d => d

/-- Steps 3-4 of `process_task`: merge recovered attachments with the newly
submitted ones (a new attachment wins on the same name) and regenerate the
manifest text; `none` when the merged mapping is empty. -/
def reconStage (existing : FS) (atts : List (String × String)) : FS × Option String :=
  let d := atts.foldl (fun acc nv => FS.insert acc nv.1 nv.2) (recoverAttachments existing)
  (d, if d.isEmpty then none else some (manifestText d))

/-! ### The round pipeline (`process_task`, `src/main.py`) -/

/-- The round request fields consumed by the pipeline (attachments as
(name, data-URI) pairs). -/
structure TaskRequest where
  email : String
  secret : String
  task : String
  round : Nat
  nonce : String
  brief : String
  checks : List String
  evaluationUrl : String
  attachments : List (String × String)
deriving DecidableEq

/-- A `state.json` ledger record as written by `update_task_info`. -/
structure LedgerEntry where
  repoName : String
  repoUrl : String
  commitSha : Nat
  pagesUrl : String
  lastRound : Nat
deriving DecidableEq

/-- The external calls made by one round, in order. -/
inductive Effect
  | repoDelete
  | repoCreate
  | getRepo
  | readFiles
  | llmCall
  | commit
  | enablePages
  | makePublic
  | notify
  | ledgerWrite
deriving DecidableEq

/-- A raised Python exception, an HTTP error, a `ValueError`, or any other. -/
inductive PyExc
  | http (code : Nat) (detail : String)
  | valueError (msg : String)
  | other (msg : String)
deriving DecidableEq

/-- Python `str(e)`; for a FastAPI `HTTPException` this is
`f"\x7bstatus_code\x7d: \x7bdetail\x7d"`. -/
def excStr : PyExc → String
  | .http code detail => toString code ++ ": " ++ detail
  | .valueError m => m
  | .other m => m

/-- The HTTP response of one round: success with the commit sha, or an HTTP
error status with its detail. -/
inductive Outcome
  | success (sha : Nat)
  | httpError (code : Nat) (detail : String)
deriving DecidableEq

instance {ε α : Type} [DecidableEq ε] [DecidableEq α] : DecidableEq (Except ε α) :=
  fun a b =>
    match a, b with
    | .ok x, .ok y => if h : x = y then isTrue (by rw [h]) else isFalse (by simp [h])
    | .error x, .error y => if h : x = y then isTrue (by rw [h]) else isFalse (by simp [h])
    | .ok _, .error _ => isFalse (by simp)
    | .error _, .ok _ => isFalse (by simp)

/-- The state of every external collaborator of one round: secret, ledger,
the task's repository, the generative model's reply (or transport failure),
and whether the notification post succeeds. -/
structure World where
  apiSecret : String
  username : String
  ledger : List (String × LedgerEntry)
  repoExists : Bool
  repoPrivate : Bool
  history : List FS
  llmReply : Except PyExc (List Char)
  notifyOk : Bool
deriving DecidableEq

/-- `get_task_info`: read one ledger record. -/
def ledgerGet : List (String × LedgerEntry) → String → Option LedgerEntry
  | [], _ => none
  | (a, b) :: r, k => if a = k then some b else ledgerGet r k

/-- `update_task_info`: upsert one ledger record. -/
def ledgerSet : List (String × LedgerEntry) → String → LedgerEntry → List (String × LedgerEntry)
  | [], k, v => [(k, v)]
  | (a, b) :: r, k, v => if a = k then (k, v) :: r else (a, b) :: ledgerSet r k v

/-- `LLMService.generate_code` with the model call abstracted as the
world-supplied reply (prompt construction affects no claim): a transport or
truncation failure propagates; a reply goes through `_parse_response`, whose
failure becomes the `ValueError` the caller maps to an invalid-response
error. -/
def generateCode (reply : Except PyExc (List Char)) : Except PyExc FS :=
  match reply with
  | .error e => .error e
  | .ok text =>
    match parseResponse text with
    | .error preview =>
      .error (.valueError ("Failed to parse LLM response as valid JSON. Response preview: " ++
        String.mk preview))
    | .ok files => .ok files

/-- `GitHubService.get_repo_url`. -/
def repoUrlOf (username repoName : String) : String :=
  "https://github.com/" ++ username ++ "/" ++ repoName

/-- `GitHubService.get_pages_url`. -/
def pagesUrlOf (username repoName : String) : String :=
  "https://" ++ username ++ ".github.io/" ++ repoName ++ "/"

/-- The `existing_code` blob: all stored files joined with path headers. -/
def existingCodeText (existing : FS) : String :=
  String.intercalate "\n\n" (existing.map fun kv => "=== " ++ kv.1 ++ " ===\n" ++ kv.2)

/-- Step 2 of `process_task`: round 1 deletes any existing repository and
creates a fresh public one; round > 1 requires a ledger entry (else the 400
client-input `HTTPException`) and reads the existing files from the branch
tip of the repository, which must exist. -/
def repoStage (req : TaskRequest) (w : World) :
    Except PyExc (World × FS × Option String) × List Effect :=
  if req.round = 1 then
    let s1 : World × List Effect :=
      if w.repoExists then ({ w with repoExists := false, history := [] }, [Effect.repoDelete])
      else (w, [])
    let w2 := { s1.1 with repoExists := true, repoPrivate := false, history := [] }
    (.ok (w2, [], none), s1.2 ++ [Effect.repoCreate])
  else
    match ledgerGet w.ledger req.task with
    | none => (.error (.http 400 ("No existing repository found for task " ++ req.task)), [])
    | some _ =>
      if w.repoExists then
        let existing := (w.history.head?).getD []
        (.ok (w, existing, some (existingCodeText existing)), [Effect.getRepo, Effect.readFiles])
      else (.error (.other "Not Found"), [Effect.getRepo])

/-- The body of the `try` block of `process_task` (steps 2-10): returns the
commit sha or the first raised exception, the final collaborator state, and
the ordered trace of external calls. -/
def processBody (req : TaskRequest) (w : World) : Except PyExc Nat × World × List Effect :=
  match repoStage req w with
  | (.error e, effs) => (.error e, w, effs)
  | (.ok (w1, existing, _existingCode), effs0) =>
    let recon := reconStage existing req.attachments
    let effs1 := effs0 ++ [Effect.llmCall]
    match generateCode w1.llmReply with
    | .error (.valueError m) =>
      (.error (.http 500 ("LLM generated invalid response: " ++ m)), w1, effs1)
    | .error e =>
      (.error (.http 500 ("LLM generation failed: " ++ excStr e)), w1, effs1)
    | .ok generated =>
      match assembleFiles req.round existing generated recon.2 req.checks req.brief req.task with
      | .error msg => (.error (.http 500 msg), w1, effs1)
      | .ok allFiles =>
        match commitFiles w1.history allFiles with
        | none => (.error (.other "commit failed"), w1, effs1 ++ [Effect.commit])
        | some (sha, hist2) =>
          let w2 := { w1 with history := hist2 }
          let wantPublic := req.checks.any (fun c => hasSub "public".data (lowerD c.data)) && w2.repoPrivate
          let w3 := if wantPublic then { w2 with repoPrivate := false } else w2
          let effs2 := effs1 ++ [Effect.commit, Effect.enablePages] ++
            (if wantPublic then [Effect.makePublic] else []) ++ [Effect.notify]
          if w3.notifyOk then
            let entry : LedgerEntry :=
              { repoName := req.task
                repoUrl := repoUrlOf w3.username req.task
                commitSha := sha
                pagesUrl := pagesUrlOf w3.username req.task
                lastRound := req.round }
            (.ok sha, { w3 with ledger := ledgerSet w3.ledger req.task entry },
              effs2 ++ [Effect.ledgerWrite])
          else (.error (.other "Notification request failed"), w3, effs2)

/-- `process_task`: the authentication check (outside the `try`), the body,
and the catch-all `except Exception` (lines 306-307) that re-raises every
in-body exception as an HTTP 500 whose detail is `str(e)`. -/
def processTask (req : TaskRequest) (w : World) : Outcome × World × List Effect :=
  if req.secret ≠ w.apiSecret then (.httpError 401 "Invalid secret", w, [])
  else
    match processBody req w with
    | (.ok sha, w2, effs) => (.success sha, w2, effs)
    | (.error e, w2, effs) => (.httpError 500 (excStr e), w2, effs)

/-! ### Supporting lemmas for the claim theorems -/

theorem FS.isSome_lookup_insert (fs : FS) (k k' : String) (v : String)
    (h : (FS.lookup fs k).isSome) : (FS.lookup (FS.insert fs k' v) k).isSome := by
  by_cases hk : k = k'
  · subst hk
    simp [FS.lookup_insert_self]
  · rw [FS.lookup_insert_ne _ _ _ _ hk]
    exact h

theorem addManifest_lookup_ne (fs : FS) (a : Option String) (k : String)
    (h : k ≠ "attachments.js") : FS.lookup (addManifest fs a) k = FS.lookup fs k := by
  cases a with
  | none => rfl
  | some c => exact FS.lookup_insert_ne _ _ _ _ h

/-! ### Claim C1 -/

/-- Concrete five-file FileSet used for claim C1. -/
def exFiles5 : FS :=
  [("index.html", "a"), ("LICENSE", "b"), ("README.md", "c"),
   ("style.css", "d"), ("script.js", "e")]

/-- C1 counterexample: an empty destination given a 5-file FileSet does not
gain exactly one revision — `commit_files` initializes the empty repository
with a `create_file` commit and then adds a second commit layering the
remaining four files, so the history ends with two revisions, not one. -/
theorem claim_C1_counterexample :
    ((commitFiles [] exFiles5).map fun r => r.2.length) ≠ some 1 := by
  decide

/-- C1 amended: `commit_files` always returns exactly one revision id; a
non-empty destination always gains exactly one revision (also with a 5-file
set of which 3 changed); an empty destination gains one revision for a
single-file FileSet and two revisions (the initializing one plus the layered
one) for a larger FileSet. -/
theorem claim_C1_amended (hist : List FS) (files : FS) (h : files ≠ []) :
    ∃ sha hist2, commitFiles hist files = some (sha, hist2) ∧
      hist2.length =
        (if hist.isEmpty then (if files.length = 1 then 1 else 2) else hist.length + 1) := by
  obtain ⟨⟨p, c⟩, rest, rfl⟩ : ∃ kv rest, files = kv :: rest := by
    cases files with
    | nil => exact absurd rfl h
    | cons kv rest => exact ⟨kv, rest, rfl⟩
  cases hist with
  | nil =>
    by_cases hr : rest.isEmpty
    · refine ⟨0, [[(p, c)]], by simp [commitFiles, hr], ?_⟩
      have : rest = [] := by simpa [List.isEmpty_iff] using hr
      subst this
      simp
    · refine ⟨1, [FS.updateAll [(p, c)] rest, [(p, c)]], by simp [commitFiles, hr], ?_⟩
      have : rest ≠ [] := by simpa [List.isEmpty_iff] using hr
      have hlen : rest.length ≠ 0 := by simpa [List.length_eq_zero] using this
      simp only [List.length_cons, List.length_nil, List.isEmpty_nil]
      rw [if_pos trivial, if_neg (by omega)]
  | cons tip hh =>
    exact ⟨(tip :: hh).length, FS.updateAll tip ((p, c) :: rest) :: tip :: hh,
      by simp [commitFiles], by simp⟩

/-- C1 witness: the amended statement at a non-empty destination and the
concrete 5-file FileSet. -/
theorem claim_C1_witness :
    ∃ sha hist2, commitFiles [[("index.html", "old")]] exFiles5 = some (sha, hist2) ∧
      hist2.length =
        (if ([[("index.html", "old")]] : List FS).isEmpty
         then (if exFiles5.length = 1 then 1 else 2)
         else ([[("index.html", "old")]] : List FS).length + 1) :=
  claim_C1_amended [[("index.html", "old")]] exFiles5 (by decide)

/-! ### Claim C2 -/

/-- C2: for round > 1 the FileSet built at the merge stage of `process_task`
(lines 176-188, before mandatory-file enforcement) is the prior FileSet with
the manifest `attachments.js` removed, overlaid by every key of the
extracted FileSet: an extracted path carries the extracted content, the
manifest path is dropped, and every other prior path is carried forward
unchanged. -/
theorem claim_C2_carry_forward (round : Nat) (existing generated : FS)
    (hnd : (FS.keys generated).Nodup) (hr : 1 < round) (p : String) :
    FS.lookup (mergeStage round existing generated) p =
      match FS.lookup generated p with
      | some v => some v
      | none => if p = "attachments.js" then none else FS.lookup existing p := by
  unfold mergeStage
  rw [if_pos hr, FS.lookup_updateAll _ _ _ hnd]
  cases hg : FS.lookup generated p with
  | some v => rfl
  | none =>
    by_cases hp : p = "attachments.js"
    · subst hp
      simp [FS.lookup_eraseKey_self]
    · simp [hp, FS.lookup_eraseKey_ne _ _ _ hp]

/-- C2 witness: a round-2 merge at a concrete prior FileSet and extracted
FileSet, looked up at a carried-forward path. -/
theorem claim_C2_witness :
    FS.lookup (mergeStage 2
        [("index.html", "old"), ("style.css", "s"), ("attachments.js", "m")]
        [("index.html", "new")]) "style.css" =
      match FS.lookup [("index.html", "new")] "style.css" with
      | some v => some v
      | none => if "style.css" = "attachments.js" then none
                else FS.lookup [("index.html", "old"), ("style.css", "s"), ("attachments.js", "m")] "style.css" :=
  claim_C2_carry_forward 2
    [("index.html", "old"), ("style.css", "s"), ("attachments.js", "m")]
    [("index.html", "new")] (by decide) (by decide) "style.css"

/-! ### Claim C3 -/

/-- C3: whenever the Snapshot Assembler completes without error, the
produced FileSet contains the entry point `index.html` and the license file
`LICENSE`; and when `index.html` is missing after the merge, assembly is a
hard failure carrying the missing-entry-point error, with no synthetic
substitute. -/
theorem claim_C3_invariant (round : Nat) (existing generated : FS)
    (attachmentsJs : Option String) (checks : List String) (brief repoName : String) :
    (∀ fs, assembleFiles round existing generated attachmentsJs checks brief repoName = .ok fs →
        (FS.lookup fs "index.html").isSome ∧ (FS.lookup fs "LICENSE").isSome) ∧
    (FS.lookup (mergeStage round existing generated) "index.html" = none →
      assembleFiles round existing generated attachmentsJs checks brief repoName =
        .error "LLM did not generate required index.html file") := by
  constructor
  · intro fs hok
    simp only [assembleFiles] at hok
    cases hhtml : FS.lookup (mergeStage round existing generated) "index.html" with
    | none =>
      rw [hhtml] at hok
      exact absurd hok (by simp)
    | some html =>
      rw [hhtml] at hok
      simp only [Except.ok.injEq] at hok
      subst hok
      set af3 := addManifest
        (FS.insert (mergeStage round existing generated) "index.html" (repairHtml html))
        attachmentsJs with haf3
      have hidx3 : (FS.lookup af3 "index.html").isSome := by
        rw [haf3, addManifest_lookup_ne _ _ _ (by decide)]
        simp [FS.lookup_insert_self]
      by_cases hP1 : mitMentioned checks = true ∨ FS.lookup af3 "LICENSE" = none
      · rw [if_pos hP1]
        have hidx4 : (FS.lookup (FS.insert af3 "LICENSE" mitLicenseText) "index.html").isSome :=
          FS.isSome_lookup_insert _ _ _ _ hidx3
        have hlic4 : (FS.lookup (FS.insert af3 "LICENSE" mitLicenseText) "LICENSE").isSome := by
          simp [FS.lookup_insert_self]
        by_cases hP2 : FS.lookup (FS.insert af3 "LICENSE" mitLicenseText) "README.md" = none
        · rw [if_pos hP2]
          exact ⟨FS.isSome_lookup_insert _ _ _ _ hidx4, FS.isSome_lookup_insert _ _ _ _ hlic4⟩
        · rw [if_neg hP2]
          exact ⟨hidx4, hlic4⟩
      · rw [if_neg hP1]
        push_neg at hP1
        have hlic3 : (FS.lookup af3 "LICENSE").isSome := by
          cases hl : FS.lookup af3 "LICENSE" with
          | none => exact absurd hl hP1.2
          | some v => simp
        by_cases hP2 : FS.lookup af3 "README.md" = none
        · rw [if_pos hP2]
          exact ⟨FS.isSome_lookup_insert _ _ _ _ hidx3, FS.isSome_lookup_insert _ _ _ _ hlic3⟩
        · rw [if_neg hP2]
          exact ⟨hidx3, hlic3⟩
  · intro hnone
    simp only [assembleFiles]
    rw [hnone]

/-- Concrete assembled FileSet for the C3 witness. -/
def fsC3 : FS :=
  [("index.html", "<html></html>"), ("LICENSE", mitLicenseText),
   ("README.md", basicReadme "t" "b" [])]

/-- C3 witness: both parts of the invariant at concrete inputs — a
successful assembly containing entry point and license, and a hard failure
when the extracted set has no entry point. -/
theorem claim_C3_witness :
    ((FS.lookup fsC3 "index.html").isSome ∧ (FS.lookup fsC3 "LICENSE").isSome) ∧
    assembleFiles 1 [] [("style.css", "c")] none [] "b" "t" =
      .error "LLM did not generate required index.html file" :=
  ⟨(claim_C3_invariant 1 [] [("index.html", "<html></html>")] none [] "b" "t").1 fsC3 (by rfl),
   (claim_C3_invariant 1 [] [("style.css", "c")] none [] "b" "t").2 (by rfl)⟩

/-! ### Claim C5 -/

/-- C5: the truncation repair.  Entry-point content containing an opening
root tag and no closing root tag (case-insensitively) is rewritten by
appending the minimal closing sequence `"\n</body>\n</html>"` and then ends
with the closing tag; content already ending with the closing tag in any
letter case is left byte-identical. -/
theorem claim_C5_truncation_repair (c : String) :
    ((hasSub "<html".data (lowerD c.data) = true) →
      (hasSub "</html>".data (lowerD c.data) = false) →
      repairHtml c = c ++ "\n</body>\n</html>" ∧
        sufOf "</html>".data (repairHtml c).data = true) ∧
    (sufOf "</html>".data (lowerD c.data) = true → repairHtml c = c) := by
  constructor
  · intro hopen hnoclose
    have hlow : lowerD "</html>".data = "</html>".data := by decide
    have hlowU : lowerD "</HTML>".data = "</html>".data := by decide
    have hs1 : sufOf "</html>".data (stripL c.data) = false := by
      cases hsuf : sufOf "</html>".data (stripL c.data) with
      | false => rfl
      | true =>
        have h1 := hasSub_of_sufOf_stripL hsuf
        have h2 := hasSub_lower h1
        rw [hlow] at h2
        rw [h2] at hnoclose
        cases hnoclose
    have hs2 : sufOf "</HTML>".data (stripL c.data) = false := by
      cases hsuf : sufOf "</HTML>".data (stripL c.data) with
      | false => rfl
      | true =>
        have h1 := hasSub_of_sufOf_stripL hsuf
        have h2 := hasSub_lower h1
        rw [hlowU] at h2
        rw [h2] at hnoclose
        cases hnoclose
    have hrw : repairHtml c = c ++ "\n</body>\n</html>" := by
      unfold repairHtml
      rw [hs1, hs2, hopen, hnoclose]
      rfl
    refine ⟨hrw, ?_⟩
    rw [hrw, String.data_append]
    exact sufOf_append_right _ _ _ (by decide)
  · intro hend
    have hclose : hasSub "</html>".data (lowerD c.data) = true := hasSub_of_sufOf hend
    unfold repairHtml
    rw [hclose]
    simp

/-- C5 witness: a truncated entry point is closed and then ends with the
closing tag; one already ending with a mixed-case closing tag is untouched. -/
theorem claim_C5_witness :
    (repairHtml "<html><body>Hi</body>" = "<html><body>Hi</body>" ++ "\n</body>\n</html>" ∧
      sufOf "</html>".data (repairHtml "<html><body>Hi</body>").data = true) ∧
    repairHtml "<html>ok</HtMl>" = "<html>ok</HtMl>" :=
  ⟨(claim_C5_truncation_repair "<html><body>Hi</body>").1 (by decide) (by decide),
   (claim_C5_truncation_repair "<html>ok</HtMl>").2 (by decide)⟩

/-! ### Claim C8 -/

/-- C8: after a successful assembly, the license file is the injected MIT
text whenever some check mentions the named permissive license ("mit
license", case-insensitively) or the merged FileSet has no license file;
in all other cases the merged (model-provided or carried-forward) license
content is left exactly as it was. -/
theorem claim_C8_license (round : Nat) (existing generated : FS)
    (attachmentsJs : Option String) (checks : List String) (brief repoName : String) (fs : FS)
    (hok : assembleFiles round existing generated attachmentsJs checks brief repoName = .ok fs) :
    (mitMentioned checks = true ∨
        FS.lookup (mergeStage round existing generated) "LICENSE" = none →
      FS.lookup fs "LICENSE" = some mitLicenseText) ∧
    (mitMentioned checks = false →
      ∀ v, FS.lookup (mergeStage round existing generated) "LICENSE" = some v →
        FS.lookup fs "LICENSE" = some v) := by
  simp only [assembleFiles] at hok
  cases hhtml : FS.lookup (mergeStage round existing generated) "index.html" with
  | none =>
    rw [hhtml] at hok
    exact absurd hok (by simp)
  | some html =>
    rw [hhtml] at hok
    simp only [Except.ok.injEq] at hok
    subst hok
    set af3 := addManifest
      (FS.insert (mergeStage round existing generated) "index.html" (repairHtml html))
      attachmentsJs with haf3
    have hL3 : FS.lookup af3 "LICENSE" =
        FS.lookup (mergeStage round existing generated) "LICENSE" := by
      rw [haf3, addManifest_lookup_ne _ _ _ (by decide),
        FS.lookup_insert_ne _ _ _ _ (by decide)]
    constructor
    · intro hcase
      have hcond : mitMentioned checks = true ∨ FS.lookup af3 "LICENSE" = none := by
        rcases hcase with hmit | hnone
        · exact Or.inl hmit
        · exact Or.inr (by rw [hL3, hnone])
      rw [if_pos hcond]
      by_cases hP2 : FS.lookup (FS.insert af3 "LICENSE" mitLicenseText) "README.md" = none
      · rw [if_pos hP2, FS.lookup_insert_ne _ _ _ _ (by decide), FS.lookup_insert_self]
      · rw [if_neg hP2, FS.lookup_insert_self]
    · intro hmit v hv
      have hcond : ¬ (mitMentioned checks = true ∨ FS.lookup af3 "LICENSE" = none) := by
        rintro (h1 | h2)
        · rw [hmit] at h1
          cases h1
        · rw [hL3, hv] at h2
          cases h2
      rw [if_neg hcond]
      by_cases hP2 : FS.lookup af3 "README.md" = none
      · rw [if_pos hP2, FS.lookup_insert_ne _ _ _ _ (by decide), hL3, hv]
      · rw [if_neg hP2, hL3, hv]

/-- C8 witness: a round-1 assembly whose checks demand an MIT license gets
the injected license text even though the model provided one. -/
theorem claim_C8_witness :
    FS.lookup
      ((assembleFiles 1 [] [("index.html", "<html></html>"), ("LICENSE", "custom")] none
          ["Uses the MIT License"] "b" "t").toOption.getD [])
      "LICENSE" = some mitLicenseText := by
  have h :=
    (claim_C8_license 1 [] [("index.html", "<html></html>"), ("LICENSE", "custom")] none
      ["Uses the MIT License"] "b" "t"
      ((assembleFiles 1 [] [("index.html", "<html></html>"), ("LICENSE", "custom")] none
          ["Uses the MIT License"] "b" "t").toOption.getD []) (by rfl)).1
  exact h (Or.inl (by decide))

/-! ### Claim C7 -/

/-- C7 counterexample: the Response Extractor can return an empty mapping —
the reply `\x7b\x7d` parses directly as an empty JSON object and is returned,
so "the extractor never returns an empty mapping" fails. -/
theorem claim_C7_counterexample :
    parseResponse "\x7b\x7d".data = .ok [] := by
  rfl

/-- C7 amended: when every extraction strategy fails, `_parse_response`
raises the unparsable-generation `ValueError` whose diagnostic preview is
the first at most 500 characters of the fence-stripped reply; but a reply
parsing as an empty JSON object is returned as an empty mapping rather than
failing. -/
theorem claim_C7_amended (s e : List Char) (h : parseResponse s = .error e) :
    e = (stripFences s).take 500 ∧ e.length ≤ 500 := by
  have hmain : e = (stripFences s).take 500 := by
    simp only [parseResponse] at h
    split at h
    · exact absurd h (by simp)
    · split at h
      · exact absurd h (by simp)
      · split at h
        · exact absurd h (by simp)
        · by_cases hd : (extractPairs (stripFences s) []).isEmpty = true
          · rw [if_pos hd] at h
            simp only [Except.error.injEq] at h
            exact h.symm
          · rw [if_neg hd] at h
            exact absurd h (by simp)
  refine ⟨hmain, ?_⟩
  rw [hmain, List.length_take]
  exact min_le_left _ _

/-- C7 witness: the amended statement at a concrete unparsable reply. -/
theorem claim_C7_witness :
    "no files here".data = (stripFences "no files here".data).take 500 ∧
      ("no files here".data).length ≤ 500 :=
  claim_C7_amended "no files here".data "no files here".data (by rfl)

/-! ### Claim C4 -/

/-- Concrete round-2 request whose task has no ledger entry. -/
def reqC4 : TaskRequest :=
  { email := "user@example.com", secret := "secret", task := "task-x", round := 2,
    nonce := "n-1", brief := "extend the app", checks := ["must be public"],
    evaluationUrl := "https://eval.example/notify", attachments := [] }

/-- World for the C4 failing input: correct secret, empty ledger. -/
def worldC4 : World :=
  { apiSecret := "secret", username := "octo", ledger := [], repoExists := true,
    repoPrivate := false, history := [], llmReply := .ok "\x7b\x7d".data, notifyOk := true }

/-- C4: at a round-2 request whose task has no ledger entry the pipeline
stops before the model call and before any content-store call — the effect
trace is empty — but the 400 client-input `HTTPException` it raises is
caught by the catch-all `except Exception` of `process_task` (lines
306-307) and re-raised as a 500 server error, so the failure is NOT
surfaced as a client-input error: the code bug this claim exposes. -/
theorem claim_C4_ledger_miss :
    processTask reqC4 worldC4 =
      (.httpError 500 "400: No existing repository found for task task-x", worldC4, []) := by
  rfl

/-! ### Claim C10 -/

/-- C10: a round-1 request for a task whose repository already exists
deletes it and creates a fresh empty one strictly before the model is
invoked (the trace is exactly delete, create, model call); if generation or
extraction then fails, or assembly finds no entry point, the error is
surfaced as a 500 while the previously published history has already been
destroyed (the final history is empty) and is not restored. -/
theorem claim_C10_destructive_round1 (req : TaskRequest) (w : World)
    (hsec : req.secret = w.apiSecret) (hr : req.round = 1) (hex : w.repoExists = true) :
    (∀ e, generateCode w.llmReply = .error e →
      ∃ d, processTask req w =
        (.httpError 500 d,
         { w with repoExists := true, repoPrivate := false, history := [] },
         [Effect.repoDelete, Effect.repoCreate, Effect.llmCall])) ∧
    (∀ g msg, generateCode w.llmReply = .ok g →
      assembleFiles 1 [] g (reconStage [] req.attachments).2 req.checks req.brief req.task =
        .error msg →
      processTask req w =
        (.httpError 500 ("500: " ++ msg),
         { w with repoExists := true, repoPrivate := false, history := [] },
         [Effect.repoDelete, Effect.repoCreate, Effect.llmCall])) := by
  have hw1 : repoStage req w =
      (.ok ({ w with repoExists := true, repoPrivate := false, history := [] }, [], none),
        [Effect.repoDelete, Effect.repoCreate]) := by
    simp only [repoStage, hr, hex, if_pos rfl, if_pos trivial]
    rfl
  constructor
  · intro e he
    cases e with
    | valueError m =>
      refine ⟨"500: LLM generated invalid response: " ++ m, ?_⟩
      unfold processTask
      rw [if_neg (by simp [hsec])]
      simp only [processBody, hw1, he]
      rfl
    | http code detail =>
      refine ⟨"500: LLM generation failed: " ++ excStr (.http code detail), ?_⟩
      unfold processTask
      rw [if_neg (by simp [hsec])]
      simp only [processBody, hw1, he]
      rfl
    | other m =>
      refine ⟨"500: LLM generation failed: " ++ m, ?_⟩
      unfold processTask
      rw [if_neg (by simp [hsec])]
      simp only [processBody, hw1, he]
      rfl
  · intro g msg hgen hasm
    unfold processTask
    rw [if_neg (by simp [hsec])]
    simp only [processBody, hw1, hgen, hr, hasm]
    rfl

/-- C10 witness: a concrete round-1 request over an existing published
repository whose generation fails: one delete, one create, one model call,
a 500, and the prior artifact gone. -/
theorem claim_C10_witness :
    ∃ d, processTask
        { email := "a@b.c", secret := "s", task := "t1", round := 1, nonce := "n",
          brief := "b", checks := [], evaluationUrl := "cb", attachments := [] }
        { apiSecret := "s", username := "u", ledger := [], repoExists := true,
          repoPrivate := false, history := [[("index.html", "published")]],
          llmReply := .error (.other "boom"), notifyOk := true } =
      (.httpError 500 d,
       { apiSecret := "s", username := "u", ledger := [], repoExists := true,
         repoPrivate := false, history := ([] : List FS),
         llmReply := .error (.other "boom"), notifyOk := true },
       [Effect.repoDelete, Effect.repoCreate, Effect.llmCall]) :=
  (claim_C10_destructive_round1 _ _ (by rfl) (by rfl) (by rfl)).1 (.other "boom") (by rfl)

/-! ### Claim C9 -/

/-- Pipeline lemma: a round that reaches publication (assembly and commit
succeed) but whose completion notification fails reports a 500, keeps the
new revision in the history, and never writes the ledger. -/
theorem processTask_notify_fail (req : TaskRequest) (w w1 : World) (existing : FS)
    (ec : Option String) (effs0 : List Effect) (g fs : FS) (sha : Nat) (hist2 : List FS)
    (hsec : req.secret = w.apiSecret)
    (hrepo : repoStage req w = (.ok (w1, existing, ec), effs0))
    (hllm : w1.llmReply = w.llmReply)
    (hnot : w1.notifyOk = false)
    (hledgerw : w1.ledger = w.ledger)
    (heffs0 : Effect.ledgerWrite ∉ effs0)
    (hgen : generateCode w.llmReply = .ok g)
    (hasm : assembleFiles req.round existing g (reconStage existing req.attachments).2
        req.checks req.brief req.task = .ok fs)
    (hcommit : commitFiles w1.history fs = some (sha, hist2)) :
    (processTask req w).1 = .httpError 500 "Notification request failed" ∧
    (processTask req w).2.1.history = hist2 ∧
    (processTask req w).2.1.ledger = w.ledger ∧
    Effect.commit ∈ (processTask req w).2.2 ∧
    Effect.ledgerWrite ∉ (processTask req w).2.2 := by
  unfold processTask
  rw [if_neg (by simp [hsec])]
  simp only [processBody, hrepo, hllm, hgen, hasm, hcommit]
  by_cases hpub : (req.checks.any (fun c => hasSub "public".data (lowerD c.data)) &&
      ({ w1 with history := hist2 } : World).repoPrivate) = true
  · simp only [hpub, hnot, eq_self_iff_true, if_true, Bool.false_eq_true, if_false]
    refine ⟨?_, ?_, ?_, ?_, ?_⟩
    · first | trivial | rfl
    · first | trivial | rfl
    · first | trivial | exact hledgerw
    · simp [List.mem_append]
    · simp [List.mem_append, heffs0]
  · rw [Bool.not_eq_true] at hpub
    simp only [hpub, hnot, Bool.false_eq_true, if_false]
    refine ⟨?_, ?_, ?_, ?_, ?_⟩
    · first | trivial | rfl
    · first | trivial | rfl
    · first | trivial | exact hledgerw
    · simp [List.mem_append]
    · simp [List.mem_append, heffs0]

/-- C9 corrected: a notification failure does not roll back the published
revision (the committed history stays), but it is not swallowed by the
pipeline: the exception escapes to the catch-all, the round is reported as
a 500 server error, and the ledger is never updated. -/
theorem claim_C9_amended (req : TaskRequest) (w : World) (g fs : FS) (sha : Nat)
    (hist2 : List FS) (existing : FS)
    (hsec : req.secret = w.apiSecret)
    (hnot : w.notifyOk = false)
    (hpath : (req.round = 1 ∧ existing = []) ∨
      (1 < req.round ∧ (ledgerGet w.ledger req.task).isSome ∧ w.repoExists = true ∧
        existing = (w.history.head?).getD []))
    (hgen : generateCode w.llmReply = .ok g)
    (hasm : assembleFiles req.round existing g (reconStage existing req.attachments).2
        req.checks req.brief req.task = .ok fs)
    (hcommit : commitFiles (if req.round = 1 then [] else w.history) fs = some (sha, hist2)) :
    (processTask req w).1 = .httpError 500 "Notification request failed" ∧
    (processTask req w).2.1.history = hist2 ∧
    (processTask req w).2.1.ledger = w.ledger ∧
    Effect.commit ∈ (processTask req w).2.2 ∧
    Effect.ledgerWrite ∉ (processTask req w).2.2 := by
  rcases hpath with ⟨hr1, hex0⟩ | ⟨hr2, hledger, hrex, hexist⟩
  · subst hex0
    have hrepo : repoStage req w =
        (.ok ({ w with repoExists := true, repoPrivate := false, history := [] }, [], none),
          (if w.repoExists then [Effect.repoDelete] else []) ++ [Effect.repoCreate]) := by
      by_cases hex : w.repoExists
      · simp [repoStage, hr1, hex]
      · simp [repoStage, hr1, hex]
    refine processTask_notify_fail req w _ [] none _ g fs sha hist2 hsec hrepo rfl hnot rfl
      ?_ hgen (by rw [hr1] at hasm ⊢; exact hasm) ?_
    · by_cases hex : w.repoExists <;> simp [hex]
    · rw [if_pos hr1] at hcommit
      exact hcommit
  · obtain ⟨entry, hentry⟩ := Option.isSome_iff_exists.1 hledger
    have hne1 : ¬ req.round = 1 := by omega
    have hrepo : repoStage req w =
        (.ok (w, (w.history.head?).getD [], some (existingCodeText ((w.history.head?).getD []))),
          [Effect.getRepo, Effect.readFiles]) := by
      simp only [repoStage, hne1, if_false, hentry, hrex, if_pos trivial]
    subst hexist
    refine processTask_notify_fail req w w _ _ _ g fs sha hist2 hsec hrepo rfl hnot rfl
      (by decide) hgen hasm ?_
    rw [if_neg hne1] at hcommit
    exact hcommit

/-- Request for the concrete C9 run. -/
def reqC9 : TaskRequest :=
  { email := "a@b.c", secret := "s", task := "t1", round := 1, nonce := "n",
    brief := "b", checks := [], evaluationUrl := "cb", attachments := [] }

/-- World for the concrete C9 run: everything succeeds except the outbound
notification post. -/
def worldC9 : World :=
  { apiSecret := "s", username := "u", ledger := [], repoExists := false,
    repoPrivate := false, history := [],
    llmReply := .ok "\x7b\"index.html\": \"<html></html>\"\x7d".data, notifyOk := false }

/-- The FileSet the concrete C9 round assembles. -/
def fsC9 : FS :=
  [("index.html", "<html></html>"), ("LICENSE", mitLicenseText),
   ("README.md", basicReadme "t1" "b" [])]

/-- The destination history after the concrete C9 publication. -/
def histC9 : List FS :=
  [[("index.html", "<html></html>"), ("LICENSE", mitLicenseText),
    ("README.md", basicReadme "t1" "b" [])],
   [("index.html", "<html></html>")]]

/-- C9 counterexample: in a round whose publication succeeded but whose
notification post failed, the round does NOT complete — it reports a 500
and the ledger is never written — against the claim that the failure is
swallowed and the round still completes. -/
theorem claim_C9_counterexample :
    (processTask reqC9 worldC9).1 = .httpError 500 "Notification request failed" ∧
    Effect.commit ∈ (processTask reqC9 worldC9).2.2 ∧
    Effect.ledgerWrite ∉ (processTask reqC9 worldC9).2.2 := by
  have htrace : (processTask reqC9 worldC9).2.2 =
      [Effect.repoCreate, Effect.llmCall, Effect.commit, Effect.enablePages, Effect.notify] := by
    rfl
  refine ⟨by rfl, ?_, ?_⟩ <;> rw [htrace] <;> decide

/-- C9 witness: the amended statement at the concrete C9 run. -/
theorem claim_C9_witness :
    (processTask reqC9 worldC9).1 = .httpError 500 "Notification request failed" ∧
    (processTask reqC9 worldC9).2.1.history = histC9 ∧
    (processTask reqC9 worldC9).2.1.ledger = worldC9.ledger ∧
    Effect.commit ∈ (processTask reqC9 worldC9).2.2 ∧
    Effect.ledgerWrite ∉ (processTask reqC9 worldC9).2.2 :=
  claim_C9_amended reqC9 worldC9 [("index.html", "<html></html>")] fsC9 1 histC9 []
    (by rfl) (by rfl) (Or.inl ⟨rfl, rfl⟩) (by rfl) (by rfl) (by rfl)

/-! ### Claim C6: serialized flat mappings and their fenced, trailing-comma forms -/

/-- Characters over which the C6 equivalence is proved: printable, not a
quote, backslash, brace, or square bracket (braces and the bracket family
are exactly what the counterexample shows break the equivalence). -/
def safeChar (c : Char) : Bool :=
  !(c == '"') && !(c == '\\') && !(c == '\x7b') && !(c == '\x7d') &&
  !(c == '[') && !(c == ']') && decide (32 ≤ c.toNat)

/-- Safety of one key/value pair. -/
def safePair (kv : String × String) : Bool :=
  kv.1.data.all safeChar && kv.2.data.all safeChar

/-- One serialized `"key": "value"` pair. -/
def serPair (kv : String × String) : List Char :=
  '"' :: (kv.1.data ++ '"' :: ':' :: ' ' :: '"' :: (kv.2.data ++ ['"']))

/-- The comma-separated member list of a serialized flat mapping. -/
def serBody : FS → List Char
  | [] => []
  | [kv] => serPair kv
  | kv :: rest => serPair kv ++ ',' :: serBody rest

/-- The well-formed serialization of a flat mapping. -/
def serFlat (m : FS) : List Char :=
  '\x7b' :: (serBody m ++ ['\x7d'])

/-- The same text with one trailing comma before the closing brace. -/
def serTC (m : FS) : List Char :=
  '\x7b' :: (serBody m ++ [',', '\x7d'])

/-- The reply wrapped in fence markers. -/
def fenceWrap (t : List Char) : List Char :=
  "```json\n".data ++ t ++ "\n```".data

theorem safeChar_spec {c : Char} (h : safeChar c = true) :
    c ≠ '"' ∧ c ≠ '\\' ∧ c ≠ '\x7b' ∧ c ≠ '\x7d' ∧ c ≠ '[' ∧ c ≠ ']' ∧ 32 ≤ c.toNat := by
  simp only [safeChar, Bool.and_eq_true, Bool.not_eq_true', beq_eq_false_iff_ne, ne_eq,
    decide_eq_true_eq] at h
  tauto

theorem jStrBody_ser (s : List Char) (t : List Char) (hs : s.all safeChar = true) :
    jStrBody (s ++ '"' :: t) = some (s, t) := by
  induction s with
  | nil =>
    rw [List.nil_append, jStrBody.eq_def]
    simp
  | cons c r ih =>
    simp only [List.all_cons, Bool.and_eq_true] at hs
    obtain ⟨hc, hr⟩ := hs
    obtain ⟨h1, h2, -, -, -, -, h7⟩ := safeChar_spec hc
    rw [List.cons_append, jStrBody.eq_def]
    simp only [if_neg h1, if_neg h2, if_neg (by omega : ¬ c.toNat < 32), ih hr,
      Option.map_some']

/-- One member step of `jMembersF` on serialized safe text, continuing at a
comma. -/
theorem jMembersF_step_comma (f : Nat) (k v Y : List Char) (acc : FS)
    (hk : k.all safeChar = true) (hv : v.all safeChar = true) :
    jMembersF (f + 1) ('"' :: (k ++ '"' :: ':' :: ' ' :: '"' :: (v ++ '"' :: ',' :: Y))) acc =
      jMembersF f (jWs Y) (FS.insert acc (String.mk k) (String.mk v)) := by
  have h1 : jStrBody (k ++ '"' :: (':' :: ' ' :: '"' :: (v ++ '"' :: ',' :: Y))) =
      some (k, ':' :: ' ' :: '"' :: (v ++ '"' :: ',' :: Y)) := jStrBody_ser k _ hk
  have h2 : jStrBody (v ++ '"' :: (',' :: Y)) = some (v, ',' :: Y) := jStrBody_ser v _ hv
  simp [jMembersF, h1, h2, jWs, jWsB]

/-- One member step of `jMembersF` on serialized safe text, ending at the
closing brace. -/
theorem jMembersF_step_close (f : Nat) (k v Y : List Char) (acc : FS)
    (hk : k.all safeChar = true) (hv : v.all safeChar = true) :
    jMembersF (f + 1) ('"' :: (k ++ '"' :: ':' :: ' ' :: '"' :: (v ++ '"' :: '\x7d' :: Y))) acc =
      (if (jWs Y).isEmpty then some (FS.insert acc (String.mk k) (String.mk v)) else none) := by
  have h1 : jStrBody (k ++ '"' :: (':' :: ' ' :: '"' :: (v ++ '"' :: '\x7d' :: Y))) =
      some (k, ':' :: ' ' :: '"' :: (v ++ '"' :: '\x7d' :: Y)) := jStrBody_ser k _ hk
  have h2 : jStrBody (v ++ '"' :: ('\x7d' :: Y)) = some (v, '\x7d' :: Y) := jStrBody_ser v _ hv
  simp [jMembersF, h1, h2, jWs, jWsB]

theorem jMembersF_brace (f : Nat) (acc : FS) : jMembersF f ['\x7d'] acc = none := by
  cases f <;> simp [jMembersF]

theorem FS.insert_not_mem_append (acc : FS) (k v : String) (h : k ∉ FS.keys acc) :
    FS.insert acc k v = acc ++ [(k, v)] := by
  induction acc with
  | nil => rfl
  | cons kv r ih =>
    obtain ⟨a, b⟩ := kv
    simp only [FS.keys, List.map_cons, List.mem_cons, not_or] at h
    simp [FS.insert, Ne.symm h.1, ih (by simpa [FS.keys] using h.2)]

theorem FS.foldl_insert_nodup (m : FS) : ∀ acc : FS, (FS.keys (acc ++ m)).Nodup →
    m.foldl (fun a kv => FS.insert a kv.1 kv.2) acc = acc ++ m := by
  induction m with
  | nil => intro acc _; simp
  | cons kv rest ih =>
    intro acc h
    obtain ⟨k, v⟩ := kv
    have hkeys : FS.keys (acc ++ (k, v) :: rest) = FS.keys acc ++ k :: FS.keys rest := by
      simp [FS.keys]
    rw [hkeys] at h
    have hk : k ∉ FS.keys acc := by
      rcases List.nodup_append.1 h with ⟨-, -, hdis⟩
      intro hmem
      exact hdis hmem (List.mem_cons_self _ _)
    simp only [List.foldl_cons]
    rw [FS.insert_not_mem_append acc k v hk]
    have hnd2 : (FS.keys ((acc ++ [(k, v)]) ++ rest)).Nodup := by
      have : (acc ++ [(k, v)]) ++ rest = acc ++ (k, v) :: rest := by simp
      rw [this, hkeys]
      simpa using h
    have := ih (acc ++ [(k, v)]) hnd2
    rw [this]
    simp

/-- The serialized member list of a non-empty mapping starts with a quote. -/
theorem serBody_cons_head (kv : String × String) (rest : FS) :
    ∃ T, serBody (kv :: rest) = '"' :: T := by
  cases rest with
  | nil => exact ⟨_, rfl⟩
  | cons r0 rs => exact ⟨_, rfl⟩

theorem serBody_len_ge (m : FS) : m.length ≤ (serBody m).length := by
  induction m with
  | nil => simp [serBody]
  | cons kv rest ih =>
    cases rest with
    | nil => simp [serBody, serPair]
    | cons r0 rs =>
      have : serBody (kv :: r0 :: rs) = serPair kv ++ ',' :: serBody (r0 :: rs) := rfl
      rw [this]
      simp only [List.length_append, List.length_cons, serPair]
      simp only [List.length_cons, List.length_append] at ih ⊢
      omega

theorem jMembersF_ser (m : FS) : ∀ (f : Nat) (acc : FS), m ≠ [] → m.length < f →
    m.all safePair = true →
    jMembersF f (serBody m ++ ['\x7d']) acc =
      some (m.foldl (fun a kv => FS.insert a kv.1 kv.2) acc) := by
  induction m with
  | nil => intro f acc h; exact absurd rfl h
  | cons kv rest ih =>
    intro f acc _ hf hsafe
    obtain ⟨f2, rfl⟩ : ∃ f2, f = f2 + 1 := ⟨f - 1, by omega⟩
    simp only [List.all_cons, Bool.and_eq_true] at hsafe
    obtain ⟨hkv, hrest⟩ := hsafe
    simp only [safePair, Bool.and_eq_true] at hkv
    obtain ⟨hk, hv⟩ := hkv
    cases rest with
    | nil =>
      have hshape : serBody [kv] ++ ['\x7d'] =
          '"' :: (kv.1.data ++ '"' :: ':' :: ' ' :: '"' :: (kv.2.data ++ '"' :: '\x7d' :: [])) := by
        simp [serBody, serPair]
      rw [hshape, jMembersF_step_close f2 _ _ _ acc hk hv]
      simp [jWs]
    | cons r0 rs =>
      have hshape : serBody (kv :: r0 :: rs) ++ ['\x7d'] =
          '"' :: (kv.1.data ++ '"' :: ':' :: ' ' :: '"' :: (kv.2.data ++ '"' :: ',' ::
            (serBody (r0 :: rs) ++ ['\x7d']))) := by
        simp [serBody, serPair]
      rw [hshape, jMembersF_step_comma f2 _ _ _ acc hk hv]
      obtain ⟨T, hT⟩ := serBody_cons_head r0 rs
      have hjws : jWs (serBody (r0 :: rs) ++ ['\x7d']) = serBody (r0 :: rs) ++ ['\x7d'] := by
        rw [hT]
        simp [jWs, jWsB]
      rw [hjws, ih f2 _ (by simp) (by simp only [List.length_cons] at hf ⊢; omega) hrest]
      simp

theorem jMembersF_serTC (m : FS) : ∀ (f : Nat) (acc : FS), m ≠ [] → m.length < f →
    m.all safePair = true →
    jMembersF f (serBody m ++ [',', '\x7d']) acc = none := by
  induction m with
  | nil => intro f acc h; exact absurd rfl h
  | cons kv rest ih =>
    intro f acc _ hf hsafe
    obtain ⟨f2, rfl⟩ : ∃ f2, f = f2 + 1 := ⟨f - 1, by omega⟩
    simp only [List.all_cons, Bool.and_eq_true] at hsafe
    obtain ⟨hkv, hrest⟩ := hsafe
    simp only [safePair, Bool.and_eq_true] at hkv
    obtain ⟨hk, hv⟩ := hkv
    cases rest with
    | nil =>
      have hshape : serBody [kv] ++ [',', '\x7d'] =
          '"' :: (kv.1.data ++ '"' :: ':' :: ' ' :: '"' :: (kv.2.data ++ '"' :: ',' :: ['\x7d'])) := by
        simp [serBody, serPair]
      rw [hshape, jMembersF_step_comma f2 _ _ _ acc hk hv]
      have : jWs ['\x7d'] = ['\x7d'] := by simp [jWs, jWsB]
      rw [this, jMembersF_brace]
    | cons r0 rs =>
      have hshape : serBody (kv :: r0 :: rs) ++ [',', '\x7d'] =
          '"' :: (kv.1.data ++ '"' :: ':' :: ' ' :: '"' :: (kv.2.data ++ '"' :: ',' ::
            (serBody (r0 :: rs) ++ [',', '\x7d']))) := by
        simp [serBody, serPair]
      rw [hshape, jMembersF_step_comma f2 _ _ _ acc hk hv]
      obtain ⟨T, hT⟩ := serBody_cons_head r0 rs
      have hjws : jWs (serBody (r0 :: rs) ++ [',', '\x7d']) = serBody (r0 :: rs) ++ [',', '\x7d'] := by
        rw [hT]
        simp [jWs, jWsB]
      rw [hjws, ih f2 _ (by simp) (by simp only [List.length_cons] at hf ⊢; omega) hrest]

theorem serPair_chars (kv : String × String) (h : safePair kv = true) :
    ∀ c ∈ serPair kv, c ≠ '\x7b' ∧ c ≠ '\x7d' ∧ c ≠ ']' := by
  intro c hm
  simp only [safePair, Bool.and_eq_true] at h
  obtain ⟨hk, hv⟩ := h
  have hk3 : ∀ x ∈ kv.1.data, x ≠ '\x7b' ∧ x ≠ '\x7d' ∧ x ≠ ']' := by
    intro x hx
    obtain ⟨-, -, h3, h4, -, h6, -⟩ := safeChar_spec (List.all_eq_true.1 hk x hx)
    exact ⟨h3, h4, h6⟩
  have hv3 : ∀ x ∈ kv.2.data, x ≠ '\x7b' ∧ x ≠ '\x7d' ∧ x ≠ ']' := by
    intro x hx
    obtain ⟨-, -, h3, h4, -, h6, -⟩ := safeChar_spec (List.all_eq_true.1 hv x hx)
    exact ⟨h3, h4, h6⟩
  simp only [serPair, List.mem_cons, List.mem_append, List.mem_singleton,
    List.not_mem_nil, or_false] at hm
  rcases hm with rfl | hm | hm
  · exact ⟨by decide, by decide, by decide⟩
  · exact hk3 _ hm
  · rcases hm with rfl | rfl | rfl | rfl | hm
    · exact ⟨by decide, by decide, by decide⟩
    · exact ⟨by decide, by decide, by decide⟩
    · exact ⟨by decide, by decide, by decide⟩
    · exact ⟨by decide, by decide, by decide⟩
    · rcases hm with hm | rfl
      · exact hv3 _ hm
      · exact ⟨by decide, by decide, by decide⟩

theorem serBody_chars : ∀ (m : FS), m.all safePair = true →
    ∀ c ∈ serBody m, c ≠ '\x7b' ∧ c ≠ '\x7d' ∧ c ≠ ']' := by
  intro m
  induction m with
  | nil =>
    intro _ c hm
    simp [serBody] at hm
  | cons kv rest ih =>
    intro hsafe c hm
    simp only [List.all_cons, Bool.and_eq_true] at hsafe
    obtain ⟨hkv, hrest⟩ := hsafe
    cases rest with
    | nil =>
      have : serBody [kv] = serPair kv := rfl
      rw [this] at hm
      exact serPair_chars kv hkv c hm
    | cons r0 rs =>
      have : serBody (kv :: r0 :: rs) = serPair kv ++ ',' :: serBody (r0 :: rs) := rfl
      rw [this] at hm
      simp only [List.mem_append, List.mem_cons] at hm
      rcases hm with hm | rfl | hm
      · exact serPair_chars kv hkv c hm
      · exact ⟨by decide, by decide, by decide⟩
      · exact ih hrest c hm

theorem jsonLoadsFlat_shape (s T : List Char)
    (h1 : jWs s = '\x7b' :: ('"' :: T)) (h2 : jWs ('"' :: T) = '"' :: T) :
    jsonLoadsFlat s = jMembersF (s.length + 1) ('"' :: T) [] := by
  unfold jsonLoadsFlat
  rw [h1]
  show (match jWs ('"' :: T) with
    | '\x7d' :: r2 => if (jWs r2).isEmpty then some [] else none
    | c :: r2 => jMembersF (s.length + 1) (c :: r2) []
    | [] => none) = jMembersF (s.length + 1) ('"' :: T) []
  rw [h2]
  rfl

theorem jsonLoadsFlat_ser (m : FS) (hnd : (FS.keys m).Nodup)
    (hsafe : m.all safePair = true) : jsonLoadsFlat (serFlat m) = some m := by
  cases m with
  | nil => rfl
  | cons kv rest =>
    obtain ⟨T, hT⟩ := serBody_cons_head kv rest
    have hlen : (kv :: rest).length < (serFlat (kv :: rest)).length + 1 := by
      have h0 := serBody_len_ge (kv :: rest)
      simp only [List.length_cons] at h0
      simp only [serFlat, List.length_cons, List.length_append, List.length_nil]
      omega
    have hmem := jMembersF_ser (kv :: rest) ((serFlat (kv :: rest)).length + 1) []
      (by simp) hlen hsafe
    have hfold := FS.foldl_insert_nodup (kv :: rest) [] (by simpa [FS.keys] using hnd)
    rw [hfold] at hmem
    simp only [List.nil_append] at hmem
    have hserT : serBody (kv :: rest) ++ ['\x7d'] = '"' :: (T ++ ['\x7d']) := by
      rw [hT, List.cons_append]
    have h1 : jWs (serFlat (kv :: rest)) = '\x7b' :: ('"' :: (T ++ ['\x7d'])) := by
      rw [show serFlat (kv :: rest) = '\x7b' :: (serBody (kv :: rest) ++ ['\x7d']) from rfl,
        hserT]
      simp [jWs, jWsB]
    have h2 : jWs ('"' :: (T ++ ['\x7d'])) = '"' :: (T ++ ['\x7d']) := by
      simp [jWs, jWsB]
    rw [jsonLoadsFlat_shape (serFlat (kv :: rest)) (T ++ ['\x7d']) h1 h2, ← hserT]
    exact hmem

theorem jsonLoadsFlat_serTC (m : FS) (hsafe : m.all safePair = true) :
    jsonLoadsFlat (serTC m) = none := by
  cases m with
  | nil => rfl
  | cons kv rest =>
    obtain ⟨T, hT⟩ := serBody_cons_head kv rest
    have hlen : (kv :: rest).length < (serTC (kv :: rest)).length + 1 := by
      have h0 := serBody_len_ge (kv :: rest)
      simp only [List.length_cons] at h0
      simp only [serTC, List.length_cons, List.length_append, List.length_nil]
      omega
    have hmem := jMembersF_serTC (kv :: rest) ((serTC (kv :: rest)).length + 1) []
      (by simp) hlen hsafe
    have hserT : serBody (kv :: rest) ++ [',', '\x7d'] = '"' :: (T ++ [',', '\x7d']) := by
      rw [hT, List.cons_append]
    have h1 : jWs (serTC (kv :: rest)) = '\x7b' :: ('"' :: (T ++ [',', '\x7d'])) := by
      rw [show serTC (kv :: rest) = '\x7b' :: (serBody (kv :: rest) ++ [',', '\x7d']) from rfl,
        hserT]
      simp [jWs, jWsB]
    have h2 : jWs ('"' :: (T ++ [',', '\x7d'])) = '"' :: (T ++ [',', '\x7d']) := by
      simp [jWs, jWsB]
    rw [jsonLoadsFlat_shape (serTC (kv :: rest)) (T ++ [',', '\x7d']) h1 h2, ← hserT]
    exact hmem

theorem scanMatch_nobrace (inner : List Char) (rest : List Char)
    (h : ∀ c ∈ inner, c ≠ '\x7b' ∧ c ≠ '\x7d') :
    scanMatch (inner ++ '\x7d' :: rest) false = some (inner ++ ['\x7d'], rest) := by
  induction inner with
  | nil => simp [scanMatch]
  | cons c r ih =>
    obtain ⟨h1, h2⟩ := h c (List.mem_cons_self _ _)
    rw [List.cons_append, scanMatch.eq_def]
    simp only [if_neg h2, if_neg h1]
    rw [ih fun x hx => h x (List.mem_cons_of_mem _ hx)]
    simp

theorem findAllBraceF_one (f : Nat) (inner : List Char)
    (h : ∀ c ∈ inner, c ≠ '\x7b' ∧ c ≠ '\x7d') :
    findAllBraceF (f + 1) ('\x7b' :: (inner ++ ['\x7d'])) = ['\x7b' :: (inner ++ ['\x7d'])] := by
  rw [findAllBraceF.eq_def]
  simp only [if_pos rfl]
  rw [show inner ++ ['\x7d'] = inner ++ '\x7d' :: [] from rfl, scanMatch_nobrace inner [] h]
  cases f <;> simp [findAllBraceF]

theorem findAllBrace_serTC (m : FS) (hsafe : m.all safePair = true) :
    findAllBrace (serTC m) = [serTC m] := by
  have hinner : ∀ c ∈ serBody m ++ [','], c ≠ '\x7b' ∧ c ≠ '\x7d' := by
    intro c hm
    rcases List.mem_append.1 hm with hm | hm
    · obtain ⟨h1, h2, -⟩ := serBody_chars m hsafe c hm
      exact ⟨h1, h2⟩
    · rcases List.mem_singleton.1 hm with rfl
      exact ⟨by decide, by decide⟩
  have hshape : serTC m = '\x7b' :: ((serBody m ++ [',']) ++ ['\x7d']) := by
    simp [serTC]
  unfold findAllBrace
  rw [hshape]
  have hlenf : ('\x7b' :: ((serBody m ++ [',']) ++ ['\x7d'])).length =
      ((serBody m ++ [',']) ++ ['\x7d']).length + 1 := by
    simp
  rw [hlenf]
  exact findAllBraceF_one _ _ hinner

theorem stage2_single_none (cand : List Char) (h : jsonLoadsFlat cand = none) :
    stage2 [cand] = none := by
  simp [stage2, h]

theorem sliceBraces_shape (inner : List Char) :
    sliceBraces ('\x7b' :: (inner ++ ['\x7d'])) = some ('\x7b' :: (inner ++ ['\x7d'])) := by
  simp only [sliceBraces]
  have h1 : ('\x7b' :: (inner ++ ['\x7d'])).dropWhile (fun c => !(c == '\x7b')) =
      '\x7b' :: (inner ++ ['\x7d']) := by
    simp [List.dropWhile_cons]
  rw [h1]
  have h2 : ('\x7b' :: (inner ++ ['\x7d'])).reverse = '\x7d' :: (inner.reverse ++ ['\x7b']) := by
    simp
  rw [h2]
  have h3 : ('\x7d' :: (inner.reverse ++ ['\x7b'])).dropWhile (fun c => !(c == '\x7d')) =
      '\x7d' :: (inner.reverse ++ ['\x7b']) := by
    simp [List.dropWhile_cons]
  rw [h3, ← h2, List.reverse_reverse]
  simp

theorem mem_of_mem_dropWhile {p : Char → Bool} {l : List Char} {x : Char}
    (h : x ∈ l.dropWhile p) : x ∈ l := by
  induction l with
  | nil => simpa using h
  | cons c r ih =>
    by_cases hc : p c
    · simp only [List.dropWhile_cons, hc, if_true] at h
      exact List.mem_cons_of_mem _ (ih h)
    · simpa [List.dropWhile_cons, hc] using h

theorem subTrailingF_safe (l : List Char) : ∀ f : Nat, l.length < f →
    (∀ c ∈ l, c ≠ '\x7d' ∧ c ≠ ']') →
    subTrailingF f (l ++ [',', '\x7d']) = l ++ ['\x7d'] := by
  induction l with
  | nil =>
    intro f hf _
    obtain ⟨f2, rfl⟩ : ∃ f2, f = f2 + 1 := ⟨f - 1, by omega⟩
    cases f2 <;> simp [subTrailingF, pyWsB]
  | cons c r ih =>
    intro f hf hsafe
    obtain ⟨f2, rfl⟩ : ∃ f2, f = f2 + 1 := ⟨f - 1, by omega⟩
    obtain ⟨hc1, hc2⟩ := hsafe c (List.mem_cons_self _ _)
    have hr : ∀ x ∈ r, x ≠ '\x7d' ∧ x ≠ ']' := fun x hx => hsafe x (List.mem_cons_of_mem _ hx)
    have hrec := ih f2 (by simp only [List.length_cons] at hf; omega) hr
    simp only [List.cons_append, subTrailingF]
    by_cases hc : c = ','
    · rw [if_pos hc]
      rcases hd : (r ++ [',', '\x7d']).dropWhile pyWsB with _ | ⟨c2, r2⟩
      · rw [List.dropWhile_append] at hd
        by_cases he : (r.dropWhile pyWsB).isEmpty
        · rw [if_pos he] at hd
          simp [pyWsB] at hd
        · rw [if_neg he] at hd
          simp at hd
      · have hc2ne : ¬ (c2 = '\x7d' ∨ c2 = ']') := by
          rw [List.dropWhile_append] at hd
          by_cases he : (r.dropWhile pyWsB).isEmpty
          · rw [if_pos he] at hd
            have : (([',', '\x7d'] : List Char).dropWhile pyWsB) = [',', '\x7d'] := by
              simp [pyWsB]
            rw [this] at hd
            obtain ⟨rfl, -⟩ : c2 = ',' ∧ r2 = ['\x7d'] := by
              exact ⟨(List.cons.injEq .. ▸ hd).1.symm, (List.cons.injEq .. ▸ hd).2.symm⟩
            decide
          · rw [if_neg he] at hd
            have hc2mem : c2 ∈ r.dropWhile pyWsB := by
              rcases h0 : r.dropWhile pyWsB with _ | ⟨d, D⟩
              · rw [h0] at he; simp at he
              · rw [h0] at hd
                simp only [List.cons_append] at hd
                have : c2 = d := ((List.cons.injEq .. ▸ hd).1).symm
                rw [this]
                exact List.mem_cons_self _ _
            obtain ⟨hne1, hne2⟩ := hr c2 (mem_of_mem_dropWhile hc2mem)
            rintro (rfl | rfl)
            · exact hne1 rfl
            · exact hne2 rfl
        simp only [if_neg hc2ne, hrec]
    · rw [if_neg hc]
      rw [hrec]

theorem subTrailing_serTC (m : FS) (hsafe : m.all safePair = true) :
    subTrailing (serTC m) = serFlat m := by
  have hsafe2 : ∀ c ∈ '\x7b' :: serBody m, c ≠ '\x7d' ∧ c ≠ ']' := by
    intro c hm
    rcases List.mem_cons.1 hm with rfl | hm
    · exact ⟨by decide, by decide⟩
    · obtain ⟨-, h2, h3⟩ := serBody_chars m hsafe c hm
      exact ⟨h2, h3⟩
  have hshape : serTC m = ('\x7b' :: serBody m) ++ [',', '\x7d'] := by
    simp [serTC]
  have hshape2 : serFlat m = ('\x7b' :: serBody m) ++ ['\x7d'] := by
    simp [serFlat]
  rw [hshape, hshape2]
  unfold subTrailing
  apply subTrailingF_safe ('\x7b' :: serBody m) _ _ hsafe2
  simp [List.length_append]

theorem stripL_of_ends (c1 c2 : Char) (mid : List Char)
    (h1 : pyWsB c1 = false) (h2 : pyWsB c2 = false) :
    stripL (c1 :: (mid ++ [c2])) = c1 :: (mid ++ [c2]) := by
  have d1 : (c1 :: (mid ++ [c2])).dropWhile pyWsB = c1 :: (mid ++ [c2]) := by
    simp [List.dropWhile_cons, h1]
  have hrev : (c1 :: (mid ++ [c2])).reverse = c2 :: (mid.reverse ++ [c1]) := by simp
  have d2 : (c2 :: (mid.reverse ++ [c1])).dropWhile pyWsB = c2 :: (mid.reverse ++ [c1]) := by
    simp [List.dropWhile_cons, h2]
  unfold stripL
  rw [d1, hrev, d2, ← hrev, List.reverse_reverse]

theorem stripFences_fence_brace (inner : List Char) :
    stripFences (fenceWrap ('\x7b' :: (inner ++ ['\x7d']))) = '\x7b' :: (inner ++ ['\x7d']) := by
  have hsh : fenceWrap ('\x7b' :: (inner ++ ['\x7d'])) =
      '\x60' :: (('\x60' :: '\x60' :: 'j' :: 's' :: 'o' :: 'n' :: '\n' :: '\x7b' ::
        (inner ++ ('\x7d' :: '\n' :: '\x60' :: '\x60' :: []))) ++ ['\x60']) := by
    unfold fenceWrap
    rw [show ("```json\n".data : List Char) =
        ['\x60', '\x60', '\x60', 'j', 's', 'o', 'n', '\n'] from rfl,
      show ("\n```".data : List Char) = ['\n', '\x60', '\x60', '\x60'] from rfl]
    simp
  rw [hsh]
  simp only [stripFences]
  rw [stripL_of_ends '\x60' '\x60' _ (by decide) (by decide)]
  have hpre : prefOf "```json".data ('\x60' :: (('\x60' :: '\x60' :: 'j' :: 's' :: 'o' :: 'n' ::
      '\n' :: '\x7b' :: (inner ++ ('\x7d' :: '\n' :: '\x60' :: '\x60' :: []))) ++ ['\x60'])) =
      true := by
    rw [show ("```json".data : List Char) = ['\x60', '\x60', '\x60', 'j', 's', 'o', 'n'] from rfl]
    simp [prefOf]
  rw [if_pos hpre]
  have hdrop : ('\x60' :: (('\x60' :: '\x60' :: 'j' :: 's' :: 'o' :: 'n' :: '\n' :: '\x7b' ::
      (inner ++ ('\x7d' :: '\n' :: '\x60' :: '\x60' :: []))) ++ ['\x60'])).drop 7 =
      ('\n' :: '\x7b' :: (inner ++ ['\x7d', '\n'])) ++ ['\x60', '\x60', '\x60'] := by
    simp [List.cons_append, List.append_assoc]
  rw [hdrop]
  have hsuf : sufOf "```".data
      (('\n' :: '\x7b' :: (inner ++ ['\x7d', '\n'])) ++ ['\x60', '\x60', '\x60']) = true := by
    unfold sufOf
    rw [show ("```".data : List Char).reverse = ['\x60', '\x60', '\x60'] from rfl]
    simp [prefOf]
  rw [if_pos hsuf]
  have hlen : (('\n' :: '\x7b' :: (inner ++ ['\x7d', '\n'])) ++
      ['\x60', '\x60', '\x60']).length - 3 =
      ('\n' :: '\x7b' :: (inner ++ ['\x7d', '\n'])).length := by
    simp
  rw [hlen, List.take_left]
  have d1 : ('\n' :: '\x7b' :: (inner ++ ['\x7d', '\n'])).dropWhile pyWsB =
      '\x7b' :: (inner ++ ['\x7d', '\n']) := by
    simp [List.dropWhile_cons, pyWsB]
  have hrev : ('\x7b' :: (inner ++ ['\x7d', '\n'])).reverse =
      '\n' :: '\x7d' :: (inner.reverse ++ ['\x7b']) := by simp
  have d2 : ('\n' :: '\x7d' :: (inner.reverse ++ ['\x7b'])).dropWhile pyWsB =
      '\x7d' :: (inner.reverse ++ ['\x7b']) := by
    simp [List.dropWhile_cons, pyWsB]
  unfold stripL
  rw [d1, hrev, d2]
  simp

theorem stripFences_brace (inner : List Char) :
    stripFences ('\x7b' :: (inner ++ ['\x7d'])) = '\x7b' :: (inner ++ ['\x7d']) := by
  simp only [stripFences]
  rw [stripL_of_ends '\x7b' '\x7d' _ (by decide) (by decide)]
  have hfin := stripL_of_ends '\x7b' '\x7d' inner (by decide) (by decide)
  simp [prefOf, sufOf, hfin]

theorem parseResponse_flat (m : FS) (hnd : (FS.keys m).Nodup)
    (hsafe : m.all safePair = true) : parseResponse (serFlat m) = .ok m := by
  have hstrip : stripFences (serFlat m) = serFlat m := by
    rw [show serFlat m = '\x7b' :: (serBody m ++ ['\x7d']) from rfl]
    exact stripFences_brace _
  simp only [parseResponse, hstrip, jsonLoadsFlat_ser m hnd hsafe]

theorem parseResponse_fenced_tc (m : FS) (hnd : (FS.keys m).Nodup)
    (hsafe : m.all safePair = true) : parseResponse (fenceWrap (serTC m)) = .ok m := by
  have hshape : serTC m = '\x7b' :: ((serBody m ++ [',']) ++ ['\x7d']) := by
    simp [serTC]
  have hstrip : stripFences (fenceWrap (serTC m)) = serTC m := by
    rw [hshape]
    exact stripFences_fence_brace _
  have hslice : sliceBraces (serTC m) = some (serTC m) := by
    rw [hshape]
    exact sliceBraces_shape _
  have hstage3 : stage3 (serTC m) = some m := by
    simp only [stage3, hslice]
    rw [subTrailing_serTC m hsafe, jsonLoadsFlat_ser m hnd hsafe]
  simp only [parseResponse, hstrip, jsonLoadsFlat_serTC m hsafe, findAllBrace_serTC m hsafe,
    stage2_single_none (serTC m) (jsonLoadsFlat_serTC m hsafe), hstage3]

/-- C6: for every flat string-to-string mapping whose keys and values use only
safe text characters (no quotes, backslashes, braces, brackets, or control
characters) and whose keys are distinct, the extractor recovers the mapping
both from the reply wrapped in fence markers with one trailing comma before
the closing brace, and from the clean fence-free serialization — so the two
agree, as the spec claims, on this restricted class (the unrestricted claim
is refuted by `claim_C6_counterexample`: the stage-3 comma repair can also
rewrite text inside string values). -/
theorem claim_C6_amended (m : FS) (hnd : (FS.keys m).Nodup)
    (hsafe : m.all safePair = true) :
    parseResponse (fenceWrap (serTC m)) = .ok m ∧ parseResponse (serFlat m) = .ok m :=
  ⟨parseResponse_fenced_tc m hnd hsafe, parseResponse_flat m hnd hsafe⟩

/-- C6 witness: the amended theorem evaluated at the concrete one-file mapping
`index.html ↦ hello`. -/
theorem claim_C6_witness :
    parseResponse (fenceWrap (serTC [("index.html", "hello")])) =
      .ok [("index.html", "hello")] ∧
    parseResponse (serFlat [("index.html", "hello")]) = .ok [("index.html", "hello")] :=
  claim_C6_amended [("index.html", "hello")] (by decide) (by decide)

/-- C6 counterexample to the unrestricted claim: for the one-file mapping
`a.html ↦ x,]` the fenced trailing-comma reply and the clean reply are both
accepted but yield different mappings — the `re.sub` comma repair of stage 3
deletes the comma inside the string value `x,]` because it precedes a `]`. -/
theorem claim_C6_counterexample :
    parseResponse (fenceWrap (serTC [("a.html", "x,]")])) ≠
      parseResponse (serFlat [("a.html", "x,]")]) ∧
    parseResponse (fenceWrap (serTC [("a.html", "x,]")])) = .ok [("a.html", "x]")] ∧
    parseResponse (serFlat [("a.html", "x,]")]) = .ok [("a.html", "x,]")] := by
  refine ⟨by decide, by decide, by decide⟩

end Spec2Proof
